import Mathlib

/-!
Verification development for the atomspace visualizer core:
the Metta-expression parser (MettaParser.ts), the graph transformer
(GraphTransformer.ts, nodeUtils.ts) and the layout engine (GraphEngineImpl).

Strings are modelled as Lean `String`/`List Char`; JS numbers as `ℚ`
(all arithmetic the claims touch is exact); the transcendental functions
the environment supplies (Math.cos, Math.sin, Math.sqrt) are abstracted
into a `NumOps` record, since no claim depends on their values.
-/

namespace AV

/-- The ASCII whitespace characters trimmed/split by the JS string methods
    for the inputs this system handles (space, tab, CR, LF, FF, VT). -/
def isWS (c : Char) : Bool :=
  c = ' ' || c = '\t' || c = '\r' || c = '\n' || c = '\x0c' || c = '\x0b'

/-- Model of JS String.prototype.trim. -/
def trimChars (l : List Char) : List Char :=
  ((l.dropWhile isWS).reverse.dropWhile isWS).reverse

/-- Model of JS text.split over a newline: empty segments are preserved and the
    empty string yields one empty segment. -/
def splitLines : List Char → List (List Char)
  | [] => [[]]
  | c :: rest =>
    if c = '\n' then [] :: splitLines rest
    else
      match splitLines rest with
      | l :: ls => (c :: l) :: ls
      | [] => [[c]]

def wordsAux : List Char → List Char → List (List Char)
  | [], cur => if cur.isEmpty then [] else [cur.reverse]
  | c :: rest, cur =>
    if isWS c then
      if cur.isEmpty then wordsAux rest []
      else cur.reverse :: wordsAux rest []
    else wordsAux rest (c :: cur)

/-- Model of JS String.split on the whitespace regex, for the already-trimmed
    strings the validator feeds it: the empty string yields one empty part,
    any other trimmed string yields its whitespace-separated words. -/
def jsSplitWs (l : List Char) : List (List Char) :=
  if l.isEmpty then [[]] else wordsAux l []

/-- The validator's character scan (MettaParser.validateSyntax inner loop):
    returns the column of the first closing paren that drives the count
    negative (if any), the final count, and the index of the last opening
    paren seen (-1 when none). -/
def parenScanAux : List Char → Nat → Int → Int → Option Nat × Int × Int
  | [], _, count, lastOpen => (none, count, lastOpen)
  | c :: rest, j, count, lastOpen =>
    if c = '(' then parenScanAux rest (j + 1) (count + 1) (j : Int)
    else if c = ')' then
      if count - 1 < 0 then (some j, count - 1, lastOpen)
      else parenScanAux rest (j + 1) (count - 1) lastOpen
    else parenScanAux rest (j + 1) count lastOpen

inductive Severity where
  | error
  | warning
deriving DecidableEq, Repr

structure ParseError where
  line : Nat
  column : Int
  message : String
  severity : Severity
deriving DecidableEq, Repr

structure ValidationResult where
  isValid : Bool
  errors : List ParseError
  warnings : List ParseError
deriving DecidableEq, Repr

def commonPredicates : List String :=
  ["gender", "is-parent", "is-brother", "is-sister", "age", "name"]

/-- One DP step of the classic Levenshtein recurrence used by the source:
    walking the first string, with the previous matrix row aligned so that its
    head is the diagonal entry; `left` is the entry just computed. -/
def levGo : Char → List Char → List Nat → Nat → List Nat
  | _, [], _, _ => []
  | c2, c1 :: cs, diag :: rest, left =>
    let above := rest.headD 0
    let indicator := if c1 = c2 then 0 else 1
    let v := min (min (left + 1) (above + 1)) (diag + indicator)
    v :: levGo c2 cs rest v
  | _, _ :: _, [], _ => []

def levRow (l1 : List Char) (c2 : Char) (prevRow : List Nat) (j : Nat) : List Nat :=
  j :: levGo c2 l1 prevRow j

/-- MettaParser.levenshteinDistance: dynamic-programming edit distance,
    matrix row by matrix row. -/
def levenshteinDistance (s1 s2 : String) : Nat :=
  let l1 := s1.data
  let l2 := s2.data
  let row0 := List.range (l1.length + 1)
  let final := l2.foldl (fun (st : List Nat × Nat) c2 =>
    (levRow l1 c2 st.1 (st.2 + 1), st.2 + 1)) (row0, 0)
  final.1.getLastD 0

/-- JS toLowerCase restricted to the ASCII range the inputs use. -/
def toLowerStr (s : String) : String :=
  String.mk (s.data.map Char.toLower)

/-- The per-line body of MettaParser.validateSyntax, returning the errors and
    warnings that line contributes. The source's combined condition
    `!hasOpenParen || (!hasCloseParen && !hasOpenParen)` collapses to the
    open-paren test alone, which is modelled directly. -/
def validateLine (lineNo : Nat) (raw : List Char) : List ParseError × List ParseError :=
  let line := trimChars raw
  if line.isEmpty || line.head? = some ';' then ([], [])
  else if ¬ (line.head? = some '(') then
    ([⟨lineNo + 1, 0, "Expression must be enclosed in parentheses", .error⟩], [])
  else
    match parenScanAux line 0 0 (-1) with
    | (some j, _, _) =>
      ([⟨lineNo + 1, (j : Int) + 1, "Unmatched closing parenthesis", .error⟩], [])
    | (none, count, lastOpen) =>
      if count > 0 then
        ([⟨lineNo + 1, lastOpen + 1, "Unmatched opening parenthesis", .error⟩], [])
      else if line.length > 2 then
        let content := trimChars ((line.drop 1).dropLast)
        let parts := jsSplitWs content
        let errs : List ParseError :=
          if parts.length < 2 then
            [⟨lineNo + 1, 1, "Expression must have at least a predicate and one argument", .error⟩]
          else []
        let warns : List ParseError :=
          if parts.length ≥ 2 then
            let predicate := String.mk (parts.headD [])
            match commonPredicates.find? (fun cp =>
                levenshteinDistance (toLowerStr predicate) cp = 1) with
            | some similar =>
              if predicate ≠ similar then
                [⟨lineNo + 1, 1,
                  "Did you mean \"" ++ similar ++ "\"? Found \"" ++ predicate ++ "\"",
                  .warning⟩]
              else []
            | none => []
          else []
        (errs, warns)
      else ([], [])

/-- MettaParser.validateSyntax: line-oriented structural checks. -/
def validateSyntax (mettaText : String) : ValidationResult :=
  let lines := splitLines mettaText.data
  let acc := lines.enum.foldl (fun (acc : List ParseError × List ParseError) p =>
    let r := validateLine p.1 p.2
    (acc.1 ++ r.1, acc.2 ++ r.2)) ([], [])
  { isValid := acc.1.length == 0, errors := acc.1, warnings := acc.2 }

/-- MettaParser.tokenize inner loop: splits on spaces at paren depth 0,
    keeping each fully parenthesized group as one token. -/
def tokenizeAux : List Char → List Char → Int → Bool → List (List Char) → List (List Char)
  | [], current, _, _, tokens =>
    if (trimChars current).isEmpty then tokens else tokens ++ [trimChars current]
  | c :: rest, current, parenDepth, inToken, tokens =>
    if c = '(' then
      tokenizeAux rest (current ++ [c]) (parenDepth + 1) true tokens
    else if c = ')' then
      if (parenDepth - 1) = 0 && inToken then
        tokenizeAux rest [] (parenDepth - 1) false (tokens ++ [trimChars (current ++ [c])])
      else
        tokenizeAux rest (current ++ [c]) (parenDepth - 1) inToken tokens
    else if c = ' ' && parenDepth = 0 then
      if (trimChars current).isEmpty then
        tokenizeAux rest [] parenDepth false tokens
      else
        tokenizeAux rest [] parenDepth false (tokens ++ [trimChars current])
    else
      tokenizeAux rest (current ++ [c]) parenDepth true tokens

def tokenize (content : List Char) : List (List Char) :=
  tokenizeAux content [] 0 false []

theorem trimChars_length_le (l : List Char) : (trimChars l).length ≤ l.length := by
  unfold trimChars
  calc ((l.dropWhile isWS).reverse.dropWhile isWS).reverse.length
      = ((l.dropWhile isWS).reverse.dropWhile isWS).length := List.length_reverse _
    _ ≤ (l.dropWhile isWS).reverse.length := (List.dropWhile_sublist _).length_le
    _ = (l.dropWhile isWS).length := List.length_reverse _
    _ ≤ l.length := (List.dropWhile_sublist _).length_le

theorem tokenizeAux_mem_length :
    ∀ (l cur : List Char) (d : Int) (it : Bool) (acc : List (List Char)) (t : List Char),
      t ∈ tokenizeAux l cur d it acc → t ∈ acc ∨ t.length ≤ cur.length + l.length := by
  intro l
  induction l with
  | nil =>
    intro cur d it acc t ht
    unfold tokenizeAux at ht
    split at ht
    · exact Or.inl ht
    · rcases List.mem_append.mp ht with h | h
      · exact Or.inl h
      · simp only [List.mem_singleton] at h
        subst h
        exact Or.inr (le_trans (trimChars_length_le cur) (by simp))
  | cons c rest ih =>
    intro cur d it acc t ht
    unfold tokenizeAux at ht
    split at ht
    · -- c = '('
      rcases ih _ _ _ _ _ ht with h | h
      · exact Or.inl h
      · right
        simp only [List.length_append, List.length_cons, List.length_singleton, List.length_nil] at h ⊢
        omega
    · split at ht
      · -- c = ')'
        split at ht
        · -- token closed and pushed
          rcases ih _ _ _ _ _ ht with h | h
          · rcases List.mem_append.mp h with h2 | h2
            · exact Or.inl h2
            · simp only [List.mem_singleton] at h2
              subst h2
              right
              have h3 := trimChars_length_le (cur ++ [c])
              simp only [List.length_append, List.length_singleton, List.length_cons, List.length_nil] at h3 ⊢
              omega
          · right
            simp only [List.length_nil, List.length_cons] at h ⊢
            omega
        · rcases ih _ _ _ _ _ ht with h | h
          · exact Or.inl h
          · right
            simp only [List.length_append, List.length_singleton, List.length_cons, List.length_nil] at h ⊢
            omega
      · split at ht
        · -- space at depth 0
          split at ht
          · rcases ih _ _ _ _ _ ht with h | h
            · exact Or.inl h
            · right
              simp only [List.length_nil, List.length_cons] at h ⊢
              omega
          · rcases ih _ _ _ _ _ ht with h | h
            · rcases List.mem_append.mp h with h2 | h2
              · exact Or.inl h2
              · simp only [List.mem_singleton] at h2
                subst h2
                right
                have h3 := trimChars_length_le cur
                simp only [List.length_cons]
                omega
            · right
              simp only [List.length_nil, List.length_cons] at h ⊢
              omega
        · -- ordinary character accumulated
          rcases ih _ _ _ _ _ ht with h | h
          · exact Or.inl h
          · right
            simp only [List.length_append, List.length_singleton, List.length_cons, List.length_nil] at h ⊢
            omega

theorem tokenize_mem_length (content t : List Char) (h : t ∈ tokenize content) :
    t.length ≤ content.length := by
  rcases tokenizeAux_mem_length content [] 0 false [] t h with h1 | h1
  · simp at h1
  · simpa using h1

theorem two_le_length_of_wrapped (l : List Char)
    (h1 : l.head? = some '(') (h2 : l.getLast? = some ')') : 2 ≤ l.length := by
  match l with
  | [] => simp at h1
  | [x] =>
    simp only [List.head?_cons, Option.some.injEq] at h1
    simp only [List.getLast?_singleton, Option.some.injEq] at h2
    subst h1
    exact absurd h2 (by decide)
  | x :: y :: rest =>
    simp only [List.length_cons]
    omega

/-- MettaParser's recursive Expression tree: an argument is an atom or a
    nested expression. -/
inductive ParsedExpression where
  | mk : String → List (String ⊕ ParsedExpression) → ParsedExpression

def ParsedExpression.predicate : ParsedExpression → String
  | .mk p _ => p

def ParsedExpression.args : ParsedExpression → List (String ⊕ ParsedExpression)
  | .mk _ a => a

/-- The token list of one expression: outer parens stripped, interior
    trimmed and tokenized. -/
def exprTokens (expression : List Char) : List (List Char) :=
  tokenize (trimChars (((trimChars expression).drop 1).dropLast))

theorem exprTokens_mem_length (e tok : List Char)
    (hc : (trimChars e).head? = some '(' ∧ (trimChars e).getLast? = some ')')
    (h : tok ∈ exprTokens e) : tok.length + 2 ≤ e.length := by
  have h1 := tokenize_mem_length _ _ h
  have h2 := trimChars_length_le (((trimChars e).drop 1).dropLast)
  have h3 : ((((trimChars e).drop 1).dropLast)).length = (trimChars e).length - 1 - 1 := by
    simp [List.length_dropLast, List.length_drop]
  have h4 := two_le_length_of_wrapped _ hc.1 hc.2
  have h5 := trimChars_length_le e
  omega

/-- MettaParser.parseExpression, with the recursion depth driven by fuel.
    Each nested token is at least two characters shorter than its expression
    (exprTokens_mem_length), so recursion depth is bounded by the length and
    fuel equal to the length never runs out: parseExpressionFuel_mono below
    proves the result is the same for every sufficient fuel, so
    parseExpression genuinely computes the source's recursive function.
    A nested token that fails to parse contributes no argument, exactly as
    in the source, where only a successfully parsed nested expression is
    pushed. -/
def parseExpressionFuel : Nat → List Char → Option ParsedExpression
  | 0, _ => none
  | fuel + 1, expression =>
    if (trimChars expression).head? = some '(' ∧ (trimChars expression).getLast? = some ')' then
      if (exprTokens expression).length < 2 then none
      else
        some (.mk (String.mk ((exprTokens expression).headD []))
          (((exprTokens expression).drop 1).filterMap (fun tok =>
            if tok.head? = some '(' ∧ tok.getLast? = some ')' then
              (parseExpressionFuel fuel tok).map Sum.inr
            else some (Sum.inl (String.mk tok)))))
    else none

theorem parseExpressionFuel_mono : ∀ (f : Nat), ∀ (g : Nat) (e : List Char),
    e.length ≤ f → e.length ≤ g →
    parseExpressionFuel f e = parseExpressionFuel g e := by
  intro f
  induction f with
  | zero =>
    intro g e h1 h2
    have he : e = [] := List.length_eq_zero.mp (Nat.le_zero.mp h1)
    subst he
    cases g with
    | zero => rfl
    | succ g2 => rfl
  | succ f ih =>
    intro g e h1 h2
    cases g with
    | zero =>
      have he : e = [] := List.length_eq_zero.mp (Nat.le_zero.mp h2)
      subst he
      rfl
    | succ g2 =>
      show parseExpressionFuel (f + 1) e = parseExpressionFuel (g2 + 1) e
      unfold parseExpressionFuel
      by_cases hc : (trimChars e).head? = some '(' ∧ (trimChars e).getLast? = some ')'
      · rw [if_pos hc, if_pos hc]
        by_cases ht : (exprTokens e).length < 2
        · rw [if_pos ht, if_pos ht]
        · rw [if_neg ht, if_neg ht]
          have hfm : (((exprTokens e).drop 1).filterMap (fun tok =>
                if tok.head? = some '(' ∧ tok.getLast? = some ')' then
                  (parseExpressionFuel f tok).map Sum.inr
                else some (Sum.inl (String.mk tok))))
              = (((exprTokens e).drop 1).filterMap (fun tok =>
                if tok.head? = some '(' ∧ tok.getLast? = some ')' then
                  (parseExpressionFuel g2 tok).map Sum.inr
                else some (Sum.inl (String.mk tok)))) := by
            refine List.filterMap_congr ?_
            intro tok htok
            by_cases hw : tok.head? = some '(' ∧ tok.getLast? = some ')'
            · rw [if_pos hw, if_pos hw]
              have hb := exprTokens_mem_length e tok hc (List.mem_of_mem_drop htok)
              rw [ih g2 tok (by omega) (by omega)]
            · rw [if_neg hw, if_neg hw]
          rw [hfm]
      · rw [if_neg hc, if_neg hc]

/-- MettaParser.parseExpression. -/
def parseExpression (expression : List Char) : Option ParsedExpression :=
  parseExpressionFuel expression.length expression

/-- The `string | string[]` union used for Triple.subject and Triple.object. -/
inductive SVal where
  | s (v : String)
  | arr (vs : List String)
deriving DecidableEq, Repr

structure Triple where
  predicate : String
  subject : SVal
  object : SVal
  isHypergraph : Bool
deriving DecidableEq, Repr

def argString : String ⊕ ParsedExpression → Option String
  | .inl v => some v
  | .inr _ => none

def isNestedArg : String ⊕ ParsedExpression → Bool
  | .inl _ => false
  | .inr _ => true

/-- MettaParser.expressionToTriple. -/
def expressionToTriple : ParsedExpression → Option Triple
  | .mk predicate args =>
    if args.any isNestedArg then
      let subjects := args.filterMap argString
      let objects := args.foldl (fun acc a =>
        match a with
        | .inl _ => acc
        | .inr (.mk np nargs) => acc ++ [np] ++ nargs.filterMap argString) []
      some { predicate,
             subject := if subjects.length = 1 then .s (subjects.headD "") else .arr subjects,
             object := if objects.length = 1 then .s (objects.headD "") else .arr objects,
             isHypergraph := true }
    else
      let stringArgs := args.filterMap argString
      if stringArgs.length ≥ 2 then
        some { predicate,
               subject := .s (stringArgs.headD ""),
               object := if (stringArgs.drop 1).length = 1 then .s (stringArgs.getD 1 "")
                         else .arr (stringArgs.drop 1),
               isHypergraph := false }
      else none

/-- The per-line loop of MettaParser.extractTriples. -/
def extractTriplesGo : List (List Char) → List Triple
  | [] => []
  | line :: rest =>
    let trimmedLine := trimChars line
    if trimmedLine.isEmpty || trimmedLine.head? = some ';' then extractTriplesGo rest
    else
      match parseExpression trimmedLine with
      | none => extractTriplesGo rest
      | some parsed =>
        match expressionToTriple parsed with
        | none => extractTriplesGo rest
        | some t => t :: extractTriplesGo rest

/-- MettaParser.extractTriples. -/
def extractTriples (mettaText : String) : List Triple :=
  extractTriplesGo (splitLines mettaText.data)

/-! Node utilities (nodeUtils.ts). -/

def isLowerAlnum (c : Char) : Bool :=
  ('a' ≤ c && c ≤ 'z') || ('0' ≤ c && c ≤ '9')

/-- The replace of hyphen runs by a single hyphen. -/
def collapseHyphensAux : Bool → List Char → List Char
  | _, [] => []
  | prevHyphen, c :: rest =>
    if c = '-' then
      if prevHyphen then collapseHyphensAux true rest
      else '-' :: collapseHyphensAux true rest
    else c :: collapseHyphensAux false rest

/-- The replace of the anchored regex stripping one leading and one trailing
    hyphen (after collapsing there is at most one of each). -/
def stripEdgeHyphens (l : List Char) : List Char :=
  let l1 := match l with
    | '-' :: rest => rest
    | other => other
  match l1.getLast? with
  | some '-' => l1.dropLast
  | _ => l1

/-- nodeUtils.generateNodeId: lower-case, non-alphanumeric runs to single
    hyphens, edge hyphens stripped. -/
def generateNodeId (label : String) : String :=
  String.mk (stripEdgeHyphens (collapseHyphensAux false
    (label.data.map (fun c =>
      let lc := Char.toLower c
      if isLowerAlnum lc then lc else '-'))))

inductive NodeType where
  | entity
  | predicate
  | value
  | hypergraph
deriving DecidableEq, Repr

inductive EdgeType where
  | relation
  | hypergraph_connection
deriving DecidableEq, Repr

structure Point where
  x : ℚ
  y : ℚ
deriving DecidableEq, Repr

structure NodeMetadata where
  originalExpression : Option String
  occurrences : Nat
  isGenerated : Option Bool
deriving DecidableEq, Repr

structure GraphNode where
  id : String
  label : String
  type : NodeType
  position : Point
  color : Option String
  size : Option ℚ
  isHypergraph : Option Bool
  metadata : NodeMetadata
deriving DecidableEq, Repr

/-- The unused optional `weight` field of the GraphEdge interface is omitted:
    no code in the covered modules writes or reads it. -/
structure GraphEdge where
  id : String
  source : String
  target : String
  label : String
  directed : Bool
  type : EdgeType
  color : Option String
deriving DecidableEq, Repr

structure HypergraphStructure where
  id : String
  predicate : String
  subjects : List String
  objects : List String
  intermediateNodeId : String
deriving DecidableEq, Repr

/-- The `lastUpdated : Date` field is a wall-clock timestamp and is omitted
    from the embedding; no claim concerns it. -/
structure GraphMetadata where
  nodeCount : Nat
  edgeCount : Nat
  hypergraphCount : Nat
deriving DecidableEq, Repr

structure GraphData where
  nodes : List GraphNode
  edges : List GraphEdge
  hypergraphs : List HypergraphStructure
  metadata : GraphMetadata
deriving DecidableEq, Repr

structure ParseResult where
  nodes : List GraphNode
  edges : List GraphEdge
  errors : List ParseError
  metadata : GraphMetadata
deriving DecidableEq, Repr

/-- JS ToInt32 conversion (the coercion applied by the `<<` operator). -/
def toInt32 (n : Int) : Int :=
  let m := n % 4294967296
  if m ≥ 2147483648 then m - 4294967296 else m

/-- The char-code hash shared by getNodeColor/getEdgeColor:
    hash = charCode + ((hash << 5) - hash), with << on 32-bit signed ints. -/
def hashString (s : String) : Int :=
  s.data.foldl (fun hash c => (c.toNat : Int) + (toInt32 (toInt32 hash * 32) - hash)) 0

def getNodeColor (label : String) : String :=
  let hue := (hashString label).natAbs % 360
  "hsla(" ++ toString hue ++ ", 65%, 70%, 0.7)"

def getEdgeColor (predicate : String) : String :=
  let hue := ((hashString predicate).natAbs + 180) % 360
  "hsla(" ++ toString hue ++ ", 60%, 65%, 0.6)"

/-- In-place mutation of the node object returned by createOrUpdateNode: the
    source mutates the first array entry carrying the id (the one its linear
    search found), so the update is applied to the first match only. -/
def updateFirstNode (nodeId : String) (f : GraphNode → GraphNode) :
    List GraphNode → List GraphNode
  | [] => []
  | n :: rest => if n.id = nodeId then f n :: rest else n :: updateFirstNode nodeId f rest

def bumpOccurrences (n : GraphNode) : GraphNode :=
  { n with metadata := { n.metadata with occurrences := n.metadata.occurrences + 1 } }

/-- nodeUtils.createOrUpdateNode: returns the updated array and the
    (created or updated) node. `occurrences` is always present in the
    embedding, so the source's `|| 0` default collapses away. -/
def createOrUpdateNode (nodes : List GraphNode) (label : String) (position : Point) :
    List GraphNode × GraphNode :=
  let nodeId := generateNodeId label
  match nodes.find? (fun n => n.id = nodeId) with
  | some existing =>
    (updateFirstNode nodeId bumpOccurrences nodes, bumpOccurrences existing)
  | none =>
    let newNode : GraphNode :=
      { id := nodeId, label := label, type := .entity, position := position,
        color := none, size := none, isHypergraph := none,
        metadata := { originalExpression := none, occurrences := 1, isGenerated := none } }
    (nodes ++ [newNode], newNode)

/-! Graph transformer (GraphTransformer.ts). -/

/-- The environment-supplied numeric functions: `cosA i n` and `sinA i n`
    stand for Math.cos and Math.sin at angle 2*pi*i/n, and `sqrtQ` for
    Math.sqrt. They are abstract parameters: no claim depends on their
    values, and every theorem about code using them holds for all of them. -/
structure NumOps where
  cosA : Nat → Nat → ℚ
  sinA : Nat → Nat → ℚ
  sqrtQ : ℚ → ℚ

def svalToList : SVal → List String
  | .s v => [v]
  | .arr vs => vs

def isDigits (l : List Char) : Bool :=
  !l.isEmpty && l.all (fun x => '0' ≤ x && x ≤ '9')

/-- GraphTransformerImpl.determineNodeType. -/
def determineNodeType (label : String) (predicate : String) : NodeType :=
  let l := label.data
  let isCapitalizedWord :=
    match l with
    | c :: rest => ('A' ≤ c && c ≤ 'Z') && !rest.isEmpty && rest.all (fun x => 'a' ≤ x && x ≤ 'z')
    | [] => false
  if isCapitalizedWord then .entity
  else if isDigits l || label = "M" || label = "F"
      || toLowerStr label = "true" || toLowerStr label = "false" then .value
  else if predicate = label then .predicate
  else .entity

/-- The per-node body of setNodeProperties. In the embedding a node always
    has a type, so the source's `!node.type || node.type === 'entity'` guard
    collapses to the entity test. -/
def setNodeProps (predicate : String) (n : GraphNode) : GraphNode :=
  let n1 := match n.color with
    | none => { n with color := some (getNodeColor n.label) }
    | some _ => n
  if n1.type = .entity then { n1 with type := determineNodeType n1.label predicate } else n1

/-- GraphTransformerImpl.setNodeProperties, applied to the node objects the
    caller collected (identified here by their ids, in collection order). -/
def setNodeProperties (nodes : List GraphNode) (targetIds : List String)
    (predicate : String) : List GraphNode :=
  targetIds.foldl (fun ns i => updateFirstNode i (setNodeProps predicate) ns) nodes

def edgeExists (edges : List GraphEdge) (edgeId : String) : Bool :=
  edges.any (fun e => e.id = edgeId)

/-- GraphTransformerImpl.createEdgesBetweenNodes (nodes are passed by id). -/
def createEdgesBetweenNodes (sourceIds targetIds : List String) (tp : Triple)
    (edges : List GraphEdge) : List GraphEdge :=
  sourceIds.foldl (fun es sid =>
    targetIds.foldl (fun es2 tid =>
      let edgeId := tp.predicate ++ "-" ++ sid ++ "-" ++ tid
      if edgeExists es2 edgeId then es2
      else es2 ++ [{ id := edgeId, source := sid, target := tid, label := tp.predicate,
                     directed := true, type := .relation,
                     color := some (getEdgeColor tp.predicate) }]) es) edges

/-- GraphTransformerImpl.processSimpleTriple: creates/reuses subject and
    object nodes with row positions, sets their properties, then creates the
    cartesian-product relation edges. -/
def processSimpleTriple (tp : Triple) (nodes : List GraphNode) (edges : List GraphEdge)
    (index : Nat) : List GraphNode × List GraphEdge :=
  let subjects := svalToList tp.subject
  let objects := svalToList tp.object
  let sStep := subjects.enum.foldl (fun (st : List GraphNode × List String) p =>
    let r := createOrUpdateNode st.1 p.2
      ⟨(p.1 : ℚ) * 120 - ((subjects.length : ℚ) - 1) * 60, (index : ℚ) * 100⟩
    (r.1, st.2 ++ [r.2.id])) (nodes, [])
  let oStep := objects.enum.foldl (fun (st : List GraphNode × List String) p =>
    let r := createOrUpdateNode st.1 p.2
      ⟨((subjects.length : ℚ) + (p.1 : ℚ)) * 120 - ((subjects.length : ℚ) - 1) * 60,
       (index : ℚ) * 100⟩
    (r.1, st.2 ++ [r.2.id])) (sStep.1, [])
  let nodes2 := setNodeProperties oStep.1 (sStep.2 ++ oStep.2) tp.predicate
  let edges2 := createEdgesBetweenNodes sStep.2 oStep.2 tp edges
  (nodes2, edges2)

/-- GraphTransformerImpl.createIntermediateNode. -/
def createIntermediateNode (predicate : String) (counter : Nat) (position : Point) :
    GraphNode :=
  { id := predicate ++ "-group-" ++ toString counter,
    label := predicate ++ " group",
    type := .hypergraph,
    position := position,
    isHypergraph := some true,
    color := some (getNodeColor predicate),
    size := some (6 / 5 : ℚ),
    metadata := { isGenerated := some true,
                  originalExpression := some (predicate ++ " hypergraph"),
                  occurrences := 1 } }

/-- GraphTransformerImpl.createHypergraphStructures: increments the
    hypergraph counter and returns the one-element structure list plus the
    new counter value. -/
def createHypergraphStructures (counter : Nat) (tp : Triple) :
    List HypergraphStructure × Nat :=
  let subjects := svalToList tp.subject
  let objects := svalToList tp.object
  let c := counter + 1
  ([{ id := "hypergraph-" ++ toString c, predicate := tp.predicate,
      subjects := subjects, objects := objects,
      intermediateNodeId := tp.predicate ++ "-group-" ++ toString c }], c)

def createHypergraphConnections (entityIds : List String) (intermediateId : String)
    (tp : Triple) (edges : List GraphEdge) : List GraphEdge :=
  entityIds.foldl (fun es eid =>
    let edgeId := tp.predicate ++ "-" ++ eid ++ "-" ++ intermediateId
    if edgeExists es edgeId then es
    else es ++ [{ id := edgeId, source := eid, target := intermediateId,
                  label := tp.predicate, directed := false,
                  type := .hypergraph_connection,
                  color := some (getEdgeColor tp.predicate) }]) edges

/-- GraphTransformerImpl.processHypergraphTriple. `counter` is the
    transformer's counter value after createHypergraphStructures incremented
    it; the truthiness guard on the (always nonempty here) intermediateNodeId
    is the source's. -/
def processHypergraphTriple (ops : NumOps) (tp : Triple) (nodes : List GraphNode)
    (edges : List GraphEdge) (hypergraphs : List HypergraphStructure)
    (counter : Nat) (index : Nat) : List GraphNode × List GraphEdge :=
  let subjects := svalToList tp.subject
  let objects := svalToList tp.object
  let allEntities := subjects ++ objects
  let centerX : ℚ := 0
  let centerY : ℚ := (index : ℚ) * 150
  let radius : ℚ := max 80 ((allEntities.length : ℚ) * 20)
  let eStep := allEntities.enum.foldl (fun (st : List GraphNode × List String) p =>
    let x := centerX + radius * ops.cosA p.1 allEntities.length
    let y := centerY + radius * ops.sinA p.1 allEntities.length
    let r := createOrUpdateNode st.1 p.2 ⟨x, y⟩
    (r.1, st.2 ++ [r.2.id])) (nodes, [])
  let afterIntermediate :=
    match hypergraphs.getLast? with
    | some hg =>
      if hg.intermediateNodeId ≠ "" then
        let intermediateNode := createIntermediateNode tp.predicate counter ⟨centerX, centerY⟩
        (eStep.1 ++ [intermediateNode],
         createHypergraphConnections eStep.2 intermediateNode.id tp edges)
      else (eStep.1, edges)
    | none => (eStep.1, edges)
  (setNodeProperties afterIntermediate.1 eStep.2 tp.predicate, afterIntermediate.2)

structure TransformSt where
  nodes : List GraphNode
  edges : List GraphEdge
  hypergraphs : List HypergraphStructure
  counter : Nat
deriving DecidableEq, Repr

/-- One iteration of the triple loop in transformTriplestoGraph. -/
def transformStep (ops : NumOps) (st : TransformSt) (p : Nat × Triple) : TransformSt :=
  let tp := p.2
  if tp.isHypergraph then
    let hs := createHypergraphStructures st.counter tp
    let hypergraphs2 := st.hypergraphs ++ hs.1
    let r := processHypergraphTriple ops tp st.nodes st.edges hypergraphs2 hs.2 p.1
    { nodes := r.1, edges := r.2, hypergraphs := hypergraphs2, counter := hs.2 }
  else
    let r := processSimpleTriple tp st.nodes st.edges p.1
    { st with nodes := r.1, edges := r.2 }

def fkey (e : GraphEdge) : String := e.source ++ "-" ++ e.target ++ "-" ++ e.label

def rkey (e : GraphEdge) : String := e.target ++ "-" ++ e.source ++ "-" ++ e.label

/-- JS Map.set on an insertion-ordered association list: an existing key keeps
    its position, a new key is appended. -/
def mapSetEdge (m : List (String × GraphEdge)) (k : String) (v : GraphEdge) :
    List (String × GraphEdge) :=
  if m.any (fun kv => kv.1 = k) then m.map (fun kv => if kv.1 = k then (k, v) else kv)
  else m ++ [(k, v)]

/-- First pass of detectBidirectionalRelationships: builds the forward-key map
    and the set of bidirectional pair keys. The two-element sort of the
    source's pairKey is inlined. The result is computed and then left unused
    by the second pass, exactly as in the source. -/
def detectFirstPass (edges : List GraphEdge) :
    List (String × GraphEdge) × List String :=
  edges.foldl (fun st e =>
    let m := mapSetEdge st.1 (fkey e) e
    let pairs :=
      if m.any (fun kv => kv.1 = rkey e) then
        let pairKey :=
          if fkey e ≤ rkey e then fkey e ++ "|" ++ rkey e else rkey e ++ "|" ++ fkey e
        if st.2.contains pairKey then st.2 else st.2 ++ [pairKey]
      else st.2
    (m, pairs)) ([], [])

/-- Second pass of detectBidirectionalRelationships: keep the first edge for
    each forward key. -/
def detectSecondPass : List GraphEdge → List String → List GraphEdge
  | [], _ => []
  | e :: rest, processed =>
    if processed.contains (fkey e) then detectSecondPass rest processed
    else e :: detectSecondPass rest (processed ++ [fkey e])

/-- GraphTransformerImpl.detectBidirectionalRelationships. The bidirectional
    pair set built by the first pass is discarded: the source keeps both
    directed edges and only deduplicates by forward key. -/
def detectBidirectionalRelationships (edges : List GraphEdge) : List GraphEdge :=
  let _flagged := detectFirstPass edges
  detectSecondPass edges []

/-- GraphTransformerImpl.transformTriplestoGraph, threading the instance
    counter explicitly: returns the GraphData and the counter after the call. -/
def transformTriplestoGraph (ops : NumOps) (counter : Nat) (triples : List Triple) :
    GraphData × Nat :=
  let fin := triples.enum.foldl (transformStep ops) ⟨[], [], [], counter⟩
  let processedEdges := detectBidirectionalRelationships fin.edges
  ({ nodes := fin.nodes, edges := processedEdges, hypergraphs := fin.hypergraphs,
     metadata := { nodeCount := fin.nodes.length, edgeCount := processedEdges.length,
                   hypergraphCount := fin.hypergraphs.length } }, fin.counter)

/-- MettaParserImpl.parse, threading the persistent transformer counter.
    The parse-level error list is the validator's errors followed by its
    warnings, as in the source. -/
def parse (ops : NumOps) (counter : Nat) (mettaText : String) : ParseResult × Nat :=
  let validation := validateSyntax mettaText
  let triples := extractTriples mettaText
  let g := transformTriplestoGraph ops counter triples
  ({ nodes := g.1.nodes, edges := g.1.edges,
     errors := validation.errors ++ validation.warnings,
     metadata := g.1.metadata }, g.2)

/-! Layout engine (GraphEngineImpl). -/

structure Transform where
  x : ℚ
  y : ℚ
  scale : ℚ
deriving DecidableEq, Repr

def screenToWorld (p : Point) (t : Transform) : Point :=
  ⟨(p.x - t.x) / t.scale, (p.y - t.y) / t.scale⟩

def distSq (a b : Point) : ℚ :=
  (a.x - b.x) * (a.x - b.x) + (a.y - b.y) * (a.y - b.y)

/-- The loop of GraphEngineImpl.getNodeAtPosition. The source compares
    Math.sqrt(dx*dx + dy*dy) <= 20 (nodeRadius); for nonnegative arguments
    that is equivalent to the squared comparison against 400 used here. -/
def getNodeAtPosGo (w : Point) : List GraphNode → Option GraphNode
  | [] => none
  | n :: rest => if distSq w n.position ≤ 400 then some n else getNodeAtPosGo w rest

/-- GraphEngineImpl.getNodeAtPosition. -/
def getNodeAtPosition (nodes : List GraphNode) (position : Point) (t : Transform) :
    Option GraphNode :=
  getNodeAtPosGo (screenToWorld position t) nodes

structure LayoutState where
  isAnimating : Bool
  progress : ℚ
  algorithm : String
  startTime : ℚ
  duration : ℚ
deriving DecidableEq, Repr

/-- The GraphEngineImpl instance fields touched by stopLayout. The scheduled
    callback handle is modelled as an optional id; cancelAnimationFrame is
    the act of clearing it. -/
structure EngineState where
  nodes : List GraphNode
  edges : List GraphEdge
  layoutState : LayoutState
  targetPositions : List (String × Point)
  animationFrameId : Option Nat
deriving DecidableEq, Repr

/-- GraphEngineImpl.stopLayout: cancel the scheduled tick, clear the
    animating flag and the target map. Node positions are not touched. -/
def stopLayout (s : EngineState) : EngineState :=
  { s with animationFrameId := none,
           layoutState := { s.layoutState with isAnimating := false },
           targetPositions := [] }

structure LayoutOptions where
  iterations : Nat
  springLength : ℚ
  springStrength : ℚ
  repulsionStrength : ℚ
  damping : ℚ
  animationDuration : ℚ
  centerForce : ℚ
deriving DecidableEq, Repr

/-- JS Map<string, Point> as an insertion-ordered association list. -/
abbrev PosMap := List (String × Point)

/-- Map.set: an existing key keeps its position, a new key is appended. -/
def setPos (m : PosMap) (k : String) (v : Point) : PosMap :=
  if m.any (fun kv => kv.1 = k) then m.map (fun kv => if kv.1 = k then (k, v) else kv)
  else m ++ [(k, v)]

def getPos (m : PosMap) (k : String) : Option Point :=
  (m.find? (fun kv => kv.1 = k)).map (fun kv => kv.2)

/-- In-place mutation of the Point stored under a key. The maps this is used
    on are built by setPos from node ids, so keys are unique and mapping over
    all matches models the single JS object mutation. -/
def updPos (m : PosMap) (k : String) (f : Point → Point) : PosMap :=
  m.map (fun kv => if kv.1 = k then (kv.1, f kv.2) else kv)

/-- GraphEngineImpl.centerLayoutPositions: offsets the computed positions so
    that their mean matches the mean of the current node positions. -/
def centerLayoutPositions (nodes : List GraphNode) (positions : PosMap) : PosMap :=
  if positions.isEmpty then positions
  else
    let currentCenterX := (nodes.map (fun n => n.position.x)).sum / (nodes.length : ℚ)
    let currentCenterY := (nodes.map (fun n => n.position.y)).sum / (nodes.length : ℚ)
    let newCenterX := (positions.map (fun kv => kv.2.x)).sum / (positions.length : ℚ)
    let newCenterY := (positions.map (fun kv => kv.2.y)).sum / (positions.length : ℚ)
    let offsetX := currentCenterX - newCenterX
    let offsetY := currentCenterY - newCenterY
    positions.map (fun kv => (kv.1, ⟨kv.2.x + offsetX, kv.2.y + offsetY⟩))

/-- The ordered pairs (i, j), i < j, visited by the nested repulsion loops. -/
def nodePairs : List GraphNode → List (GraphNode × GraphNode)
  | [] => []
  | a :: rest => rest.map (fun b => (a, b)) ++ nodePairs rest

/-- One repulsion update between a pair of nodes. The JS fallback `|| 0.1`
    replaces a zero distance by 0.1. -/
def fdRepulsionPair (ops : NumOps) (opts : LayoutOptions) (st : PosMap × PosMap)
    (p : GraphNode × GraphNode) : PosMap × PosMap :=
  let posA := (getPos st.1 p.1.id).getD ⟨0, 0⟩
  let posB := (getPos st.1 p.2.id).getD ⟨0, 0⟩
  let dx := posA.x - posB.x
  let dy := posA.y - posB.y
  let d0 := ops.sqrtQ (dx * dx + dy * dy)
  let distance := if d0 = 0 then (1 / 10 : ℚ) else d0
  let repulsiveForce := opts.repulsionStrength / (distance * distance)
  let fx := dx / distance * repulsiveForce * 20
  let fy := dy / distance * repulsiveForce * 20
  let vel1 := updPos st.2 p.1.id (fun v => ⟨v.x + fx, v.y + fy⟩)
  (st.1, updPos vel1 p.2.id (fun v => ⟨v.x - fx, v.y - fy⟩))

/-- One spring-attraction update along an edge, with the source's guard on
    missing endpoints. -/
def fdAttraction (ops : NumOps) (opts : LayoutOptions) (st : PosMap × PosMap)
    (e : GraphEdge) : PosMap × PosMap :=
  match getPos st.1 e.source, getPos st.1 e.target,
        getPos st.2 e.source, getPos st.2 e.target with
  | some sp, some tp, some _, some _ =>
    let dx := tp.x - sp.x
    let dy := tp.y - sp.y
    let d0 := ops.sqrtQ (dx * dx + dy * dy)
    let distance := if d0 = 0 then (1 / 10 : ℚ) else d0
    let attractiveForce := distance * distance / opts.springLength * opts.springStrength
    let fx := dx / distance * attractiveForce
    let fy := dy / distance * attractiveForce
    let vel1 := updPos st.2 e.source (fun v => ⟨v.x + fx, v.y + fy⟩)
    (st.1, updPos vel1 e.target (fun v => ⟨v.x - fx, v.y - fy⟩))
  | _, _, _, _ => st

/-- The centering pull applied to every node's velocity. -/
def fdCenter (opts : LayoutOptions) (nodes : List GraphNode) (st : PosMap × PosMap) :
    PosMap × PosMap :=
  nodes.foldl (fun acc n =>
    let pos := (getPos acc.1 n.id).getD ⟨0, 0⟩
    (acc.1, updPos acc.2 n.id
      (fun v => ⟨v.x - pos.x * opts.centerForce, v.y - pos.y * opts.centerForce⟩))) st

/-- Per-node position integration: clamp speed to the temperature, move,
    then damp the velocity. -/
def fdMove (ops : NumOps) (opts : LayoutOptions) (nodes : List GraphNode)
    (temperature : ℚ) (st : PosMap × PosMap) : PosMap × PosMap :=
  nodes.foldl (fun acc n =>
    let vel := (getPos acc.2 n.id).getD ⟨0, 0⟩
    let speed := ops.sqrtQ (vel.x * vel.x + vel.y * vel.y)
    let velC : Point :=
      if speed > temperature then ⟨vel.x / speed * temperature, vel.y / speed * temperature⟩
      else vel
    let pos1 := updPos acc.1 n.id (fun p => ⟨p.x + velC.x, p.y + velC.y⟩)
    (pos1, updPos acc.2 n.id (fun _ => ⟨velC.x * opts.damping, velC.y * opts.damping⟩))) st

structure FDState where
  pos : PosMap
  vel : PosMap
  temperature : ℚ
deriving DecidableEq, Repr

/-- One iteration of the force-directed main loop. -/
def fdIteration (ops : NumOps) (opts : LayoutOptions) (nodes : List GraphNode)
    (edges : List GraphEdge) (cooling : ℚ) (st : FDState) : FDState :=
  let st1 := (nodePairs nodes).foldl (fdRepulsionPair ops opts) (st.pos, st.vel)
  let st2 := edges.foldl (fdAttraction ops opts) st1
  let st3 := fdCenter opts nodes st2
  let st4 := fdMove ops opts nodes st.temperature st3
  { pos := st4.1, vel := st4.2, temperature := max (1 / 10 : ℚ) (st.temperature - cooling) }

/-- The position/velocity maps initialized from the current node positions. -/
def fdInit (nodes : List GraphNode) : PosMap × PosMap :=
  nodes.foldl (fun (acc : PosMap × PosMap) n =>
    (setPos acc.1 n.id n.position, setPos acc.2 n.id ⟨0, 0⟩)) ([], [])

/-- The initial temperature max(800, sqrt(n)*100)/10 of the main loop. -/
def fdTemperature0 (ops : NumOps) (nodes : List GraphNode) : ℚ :=
  max 800 (ops.sqrtQ (nodes.length : ℚ) * 100) / 10

/-- The raw force-directed position map, before the centering post-pass. -/
def fdRawPositions (ops : NumOps) (opts : LayoutOptions)
    (nodes : List GraphNode) (edges : List GraphEdge) : PosMap :=
  ((fdIteration ops opts nodes edges
      (fdTemperature0 ops nodes / (opts.iterations : ℚ)))^[opts.iterations]
    { pos := (fdInit nodes).1, vel := (fdInit nodes).2,
      temperature := fdTemperature0 ops nodes }).pos

/-- GraphEngineImpl.calculateForceDirectedLayout. -/
def calculateForceDirectedLayout (ops : NumOps) (opts : LayoutOptions)
    (nodes : List GraphNode) (edges : List GraphEdge) : PosMap :=
  centerLayoutPositions nodes (fdRawPositions ops opts nodes edges)

/-- Generic insertion-ordered map with Nat values, for the degree and level
    maps of the hierarchical layout. -/
def setNat (m : List (String × Nat)) (k : String) (v : Nat) : List (String × Nat) :=
  if m.any (fun kv => kv.1 = k) then m.map (fun kv => if kv.1 = k then (k, v) else kv)
  else m ++ [(k, v)]

def getNat (m : List (String × Nat)) (k : String) : Option Nat :=
  (m.find? (fun kv => kv.1 = k)).map (fun kv => kv.2)

def degreeInit (nodes : List GraphNode) : List (String × Nat) :=
  nodes.foldl (fun m n => setNat m n.id 0) []

structure BfsSt where
  queue : List String
  levels : List (String × Nat)
  visited : List String
deriving DecidableEq, Repr

/-- One dequeue of the hierarchical BFS: scan all edges from the current
    node, enqueueing and levelling unvisited targets. -/
def bfsStep (edges : List GraphEdge) (st : BfsSt) : BfsSt :=
  match st.queue with
  | [] => st
  | current :: qrest =>
    let currentLevel := (getNat st.levels current).getD 0
    let upd := edges.foldl
      (fun (acc : List String × List (String × Nat) × List String) e =>
        if e.source = current && !acc.2.2.contains e.target then
          (acc.1 ++ [e.target], setNat acc.2.1 e.target (currentLevel + 1),
           acc.2.2 ++ [e.target])
        else acc) (qrest, st.levels, st.visited)
    { queue := upd.1, levels := upd.2.1, visited := upd.2.2 }

/-- The BFS while-loop, driven by fuel. Every id is enqueued at most once
    (the visited check guards the only pushes, and enqueued ids are marked
    visited immediately), so the number of dequeues is bounded by the initial
    queue plus one per edge; the fuel passed by calculateHierarchicalLayout
    covers that bound, and the fuel-out branch is unreachable. -/
def bfsRun (edges : List GraphEdge) : Nat → BfsSt → BfsSt
  | 0, st => st
  | fuel + 1, st =>
    match st.queue with
    | [] => st
    | _ => bfsRun edges fuel (bfsStep edges st)

/-- The in-degree map of the hierarchical layout. -/
def hierInDeg (nodes : List GraphNode) (edges : List GraphEdge) : List (String × Nat) :=
  edges.foldl (fun m e => setNat m e.target ((getNat m e.target).getD 0 + 1))
    (degreeInit nodes)

/-- The out-degree map of the hierarchical layout. -/
def hierOutDeg (nodes : List GraphNode) (edges : List GraphEdge) : List (String × Nat) :=
  edges.foldl (fun m e => setNat m e.source ((getNat m e.source).getD 0 + 1))
    (degreeInit nodes)

/-- The (queue, levels, visited) triple after enqueueing every zero
    in-degree node. -/
def hierRootInit (nodes : List GraphNode) (edges : List GraphEdge) :
    List String × List (String × Nat) × List String :=
  nodes.foldl
    (fun (acc : List String × List (String × Nat) × List String) n =>
      if (getNat (hierInDeg nodes edges) n.id).getD 0 = 0 then
        (acc.1 ++ [n.id], setNat acc.2.1 n.id 0, acc.2.2 ++ [n.id])
      else acc) ([], [], [])

/-- The fallback root choice: the node with maximum out-degree. -/
def hierPick (nodes : List GraphNode) (edges : List GraphEdge) : Int × String :=
  nodes.foldl (fun (acc : Int × String) n =>
    let degree := ((getNat (hierOutDeg nodes edges) n.id).getD 0 : Int)
    if degree > acc.1 then (degree, n.id) else acc) (-1, "")

/-- The root seeding of the hierarchical BFS: the zero in-degree nodes, or
    the max out-degree fallback root when there are none. -/
def hierSeed (nodes : List GraphNode) (edges : List GraphEdge) :
    List String × List (String × Nat) × List String :=
  if (hierRootInit nodes edges).1.isEmpty then
    if (hierPick nodes edges).2 ≠ "" then
      ((hierRootInit nodes edges).1 ++ [(hierPick nodes edges).2],
       setNat (hierRootInit nodes edges).2.1 (hierPick nodes edges).2 0,
       (hierRootInit nodes edges).2.2 ++ [(hierPick nodes edges).2])
    else hierRootInit nodes edges
  else hierRootInit nodes edges

/-- The BFS of the hierarchical layout, started from the seed. -/
def hierBfs (nodes : List GraphNode) (edges : List GraphEdge) : BfsSt :=
  bfsRun edges (nodes.length + edges.length + 1)
    { queue := (hierSeed nodes edges).1, levels := (hierSeed nodes edges).2.1,
      visited := (hierSeed nodes edges).2.2 }

/-- The level map of the hierarchical layout: BFS levels, then level 0 for
    every node the BFS did not reach. -/
def hierLevels (nodes : List GraphNode) (edges : List GraphEdge) :
    List (String × Nat) :=
  nodes.foldl (fun lv n =>
    if (hierBfs nodes edges).visited.contains n.id then lv else setNat lv n.id 0)
    (hierBfs nodes edges).levels

/-- The per-level grouping of node ids, in level-map insertion order. -/
def hierLevelGroups (nodes : List GraphNode) (edges : List GraphEdge) :
    List (Nat × List String) :=
  (hierLevels nodes edges).foldl (fun (gs : List (Nat × List String)) kv =>
    if gs.any (fun g => g.1 = kv.2) then
      gs.map (fun g => if g.1 = kv.2 then (g.1, g.2 ++ [kv.1]) else g)
    else gs ++ [(kv.2, [kv.1])]) []

/-- Math.max over the level values. The spread over an empty collection only
    occurs for an empty node set, where the position map is empty and the
    value unused; the model returns 0 there. -/
def hierMaxLevel (nodes : List GraphNode) (edges : List GraphEdge) : Nat :=
  ((hierLevels nodes edges).map (fun kv => kv.2)).foldl max 0

/-- The raw hierarchical position map, before the centering post-pass. -/
def hierRawPositions (nodes : List GraphNode) (edges : List GraphEdge) : PosMap :=
  (hierLevelGroups nodes edges).foldl (fun (pm : PosMap) g =>
    let y : ℚ := ((g.1 : ℚ) - (hierMaxLevel nodes edges : ℚ) / 2) * 170
    let totalWidth : ℚ := (g.2.length : ℚ) * 120
    let startX := -totalWidth / 2
    g.2.enum.foldl (fun pm2 p =>
      setPos pm2 p.2 ⟨startX + (p.1 : ℚ) * 120 + 120 / 2, y⟩) pm) []

/-- GraphEngineImpl.calculateHierarchicalLayout. -/
def calculateHierarchicalLayout (opts : LayoutOptions) (nodes : List GraphNode)
    (edges : List GraphEdge) : PosMap :=
  centerLayoutPositions nodes (hierRawPositions nodes edges)

/-- The per-type grouping of the circular layout (JS Map insertion order). -/
def circularGroups (nodes : List GraphNode) : List (NodeType × List String) :=
  nodes.foldl (fun (gs : List (NodeType × List String)) n =>
    if gs.any (fun g => g.1 = n.type) then
      gs.map (fun g => if g.1 = n.type then (g.1, g.2 ++ [n.id]) else g)
    else gs ++ [(n.type, [n.id])]) []

/-- The raw circular position map (two-or-more-nodes branch), before the
    centering post-pass: one circle for a single group, concentric circles
    otherwise. -/
def circularGroupIds (nodes : List GraphNode) : List (List String) :=
  (circularGroups nodes).map (fun g => g.2)

def circularRawPositions (ops : NumOps) (nodes : List GraphNode) : PosMap :=
  if (circularGroupIds nodes).length = 1 then
    let nodeIds := (circularGroupIds nodes).headD []
    let radius := max (130 : ℚ) ((nodeIds.length : ℚ) * 15)
    nodeIds.enum.foldl (fun pm p =>
      setPos pm p.2 ⟨ops.cosA p.1 nodeIds.length * radius,
                     ops.sinA p.1 nodeIds.length * radius⟩) []
  else
    (circularGroupIds nodes).enum.foldl (fun pm g =>
      let radius := (130 : ℚ) + (g.1 : ℚ) * 100
      g.2.enum.foldl (fun pm2 p =>
        setPos pm2 p.2 ⟨ops.cosA p.1 g.2.length * radius,
                        ops.sinA p.1 g.2.length * radius⟩) pm) []

/-- GraphEngineImpl.calculateCircularLayout. A single node is placed at the
    origin and returned without the centering post-pass, as in the source. -/
def calculateCircularLayout (ops : NumOps) (opts : LayoutOptions)
    (nodes : List GraphNode) : PosMap :=
  match nodes with
  | [] => []
  | [n] => [(n.id, ⟨0, 0⟩)]
  | _ => centerLayoutPositions nodes (circularRawPositions ops nodes)

/-- The mean position of a point list (componentwise). -/
def centroid (pts : List Point) : Point :=
  ⟨(pts.map (fun p => p.x)).sum / (pts.length : ℚ),
   (pts.map (fun p => p.y)).sum / (pts.length : ℚ)⟩

/-! Helper lemmas. -/

theorem foldl_ne_nil_preserve {α β : Type} (f : List α → β → List α)
    (hf : ∀ acc b, acc ≠ [] → f acc b ≠ []) :
    ∀ (l : List β) (init : List α), init ≠ [] → l.foldl f init ≠ []
  | [], _, h => h
  | b :: rest, init, h => foldl_ne_nil_preserve f hf rest (f init b) (hf init b h)

theorem foldl_ne_nil_always {α β : Type} (f : List α → β → List α)
    (hf : ∀ acc b, f acc b ≠ []) :
    ∀ (l : List β) (init : List α), (l ≠ [] ∨ init ≠ []) → l.foldl f init ≠ [] := by
  intro l
  induction l with
  | nil =>
    intro init h
    rcases h with h | h
    · exact absurd rfl h
    · exact h
  | cons b rest ih =>
    intro init _
    exact ih (f init b) (Or.inr (hf init b))

theorem foldl_ne_nil_exists {α β : Type} (f : List α → β → List α)
    (hpres : ∀ acc b, acc ≠ [] → f acc b ≠ []) :
    ∀ (l : List β) (init : List α),
      ((∃ b ∈ l, ∀ acc, f acc b ≠ []) ∨ init ≠ []) → l.foldl f init ≠ [] := by
  intro l
  induction l with
  | nil =>
    rintro init (⟨b, hb, _⟩ | h)
    · simp at hb
    · exact h
  | cons b0 rest ih =>
    rintro init (⟨b, hb, hbf⟩ | h)
    · rcases List.mem_cons.mp hb with rfl | hb2
      · exact ih (f init b) (Or.inr (hbf init))
      · exact ih (f init b0) (Or.inl ⟨b, hb2, hbf⟩)
    · exact ih (f init b0) (Or.inr (hpres init b0 h))

theorem setPos_ne_nil (m : PosMap) (k : String) (v : Point) : setPos m k v ≠ [] := by
  unfold setPos
  split
  · rename_i hany
    cases m with
    | nil => simp at hany
    | cons a l => simp
  · simp

theorem setNat_ne_nil (m : List (String × Nat)) (k : String) (v : Nat) :
    setNat m k v ≠ [] := by
  unfold setNat
  split
  · rename_i hany
    cases m with
    | nil => simp at hany
    | cons a l => simp
  · simp

theorem sum_map_add_const {β : Type} (l : List β) (f : β → ℚ) (c : ℚ) :
    (l.map (fun b => f b + c)).sum = (l.map f).sum + l.length * c := by
  induction l with
  | nil => simp
  | cons a t ih =>
    simp only [List.map_cons, List.sum_cons, List.length_cons, ih]
    push_cast
    ring

/-- The centering post-pass leaves the componentwise mean of a nonempty
    position map equal to the mean of the current node positions. -/
theorem centerLayoutPositions_centroid (nodes : List GraphNode) (m : PosMap)
    (hm : m ≠ []) :
    centroid ((centerLayoutPositions nodes m).map (fun kv => kv.2))
      = centroid (nodes.map (fun n => n.position)) := by
  have hL : ((m.length : ℚ)) ≠ 0 := by
    have : m.length ≠ 0 := fun h => hm (List.length_eq_zero.mp h)
    exact_mod_cast this
  unfold centerLayoutPositions
  rw [if_neg (by simpa [List.isEmpty_iff] using hm)]
  unfold centroid
  simp only [List.map_map, List.length_map, Function.comp_def]
  rw [Point.mk.injEq]
  constructor
  · rw [sum_map_add_const, div_eq_iff hL, mul_sub]
    have hc : (↑(List.length m) : ℚ) * ((List.map (fun kv => kv.2.x) m).sum
        / ↑(List.length m)) = (List.map (fun kv => kv.2.x) m).sum := by
      rw [mul_comm]
      exact div_mul_cancel₀ _ hL
    rw [hc]
    ring
  · rw [sum_map_add_const, div_eq_iff hL, mul_sub]
    have hc : (↑(List.length m) : ℚ) * ((List.map (fun kv => kv.2.y) m).sum
        / ↑(List.length m)) = (List.map (fun kv => kv.2.y) m).sum := by
      rw [mul_comm]
      exact div_mul_cancel₀ _ hL
    rw [hc]
    ring

theorem foldl_invariant {α β : Type} (f : α → β → α) (P : α → Prop)
    (hP : ∀ acc b, P acc → P (f acc b)) :
    ∀ (l : List β) (acc : α), P acc → P (l.foldl f acc)
  | [], _, h => h
  | b :: rest, acc, h => foldl_invariant f P hP rest (f acc b) (hP acc b h)

theorem updPos_length (m : PosMap) (k : String) (f : Point → Point) :
    (updPos m k f).length = m.length := List.length_map _ _

theorem foldl_fst_length {β : Type} (f : PosMap × PosMap → β → PosMap × PosMap)
    (hf : ∀ st b, ((f st b).1).length = st.1.length) :
    ∀ (l : List β) (st : PosMap × PosMap), ((l.foldl f st).1).length = st.1.length
  | [], _ => rfl
  | b :: rest, st => (foldl_fst_length f hf rest (f st b)).trans (hf st b)

theorem fdAttraction_fst (ops : NumOps) (opts : LayoutOptions)
    (st : PosMap × PosMap) (e : GraphEdge) : (fdAttraction ops opts st e).1 = st.1 := by
  unfold fdAttraction
  split <;> rfl

theorem foldl_rep_fst (ops : NumOps) (opts : LayoutOptions) :
    ∀ (l : List (GraphNode × GraphNode)) (st : PosMap × PosMap),
      (l.foldl (fdRepulsionPair ops opts) st).1 = st.1 := by
  intro l
  induction l with
  | nil => intro st; rfl
  | cons b rest ih =>
    intro st
    rw [List.foldl_cons, ih]
    rfl

theorem foldl_attr_fst (ops : NumOps) (opts : LayoutOptions) :
    ∀ (l : List GraphEdge) (st : PosMap × PosMap),
      (l.foldl (fdAttraction ops opts) st).1 = st.1 := by
  intro l
  induction l with
  | nil => intro st; rfl
  | cons b rest ih =>
    intro st
    rw [List.foldl_cons, ih]
    exact fdAttraction_fst ops opts st b

theorem fdCenter_fst (opts : LayoutOptions) :
    ∀ (nodes : List GraphNode) (st : PosMap × PosMap),
      (fdCenter opts nodes st).1 = st.1 := by
  intro nodes
  unfold fdCenter
  induction nodes with
  | nil => intro st; rfl
  | cons n rest ih =>
    intro st
    rw [List.foldl_cons, ih]

theorem fdMove_fst_length (ops : NumOps) (opts : LayoutOptions) (temp : ℚ) :
    ∀ (nodes : List GraphNode) (st : PosMap × PosMap),
      ((fdMove ops opts nodes temp st).1).length = st.1.length := by
  intro nodes
  unfold fdMove
  induction nodes with
  | nil => intro st; rfl
  | cons n rest ih =>
    intro st
    rw [List.foldl_cons, ih]
    dsimp only
    exact updPos_length _ _ _

theorem fdIteration_pos_length (ops : NumOps) (opts : LayoutOptions)
    (nodes : List GraphNode) (edges : List GraphEdge) (cooling : ℚ) (st : FDState) :
    (fdIteration ops opts nodes edges cooling st).pos.length = st.pos.length := by
  unfold fdIteration
  rw [fdMove_fst_length, fdCenter_fst, foldl_attr_fst, foldl_rep_fst]

theorem fdInit_fst_ne (nodes : List GraphNode) (h : nodes ≠ []) : (fdInit nodes).1 ≠ [] := by
  unfold fdInit
  have H : ∀ (l : List GraphNode) (acc : PosMap × PosMap), (l ≠ [] ∨ acc.1 ≠ []) →
      (l.foldl (fun (acc : PosMap × PosMap) n =>
        (setPos acc.1 n.id n.position, setPos acc.2 n.id ⟨0, 0⟩)) acc).1 ≠ [] := by
    intro l
    induction l with
    | nil =>
      rintro acc (h | h)
      · exact absurd rfl h
      · exact h
    | cons n rest ih =>
      rintro acc _
      exact ih _ (Or.inr (setPos_ne_nil _ _ _))
  exact H nodes ([], []) (Or.inl h)

theorem fdRawPositions_ne (ops : NumOps) (opts : LayoutOptions)
    (nodes : List GraphNode) (edges : List GraphEdge) (h : nodes ≠ []) :
    fdRawPositions ops opts nodes edges ≠ [] := by
  have hiter : ∀ (cool : ℚ) (k : Nat) (st : FDState),
      (((fdIteration ops opts nodes edges cool)^[k]) st).pos.length = st.pos.length := by
    intro cool k
    induction k with
    | zero => intro st; rfl
    | succ n ih =>
      intro st
      rw [Function.iterate_succ_apply, ih, fdIteration_pos_length]
  unfold fdRawPositions
  intro hcon
  have hl := congrArg List.length hcon
  rw [hiter] at hl
  exact fdInit_fst_ne nodes h (List.length_eq_zero.mp hl)

/-- Invariant of the BFS-side states: a nonempty visited set forces a
    nonempty level map (levels and visited are always extended together). -/
def QInv (levels : List (String × Nat)) (visited : List String) : Prop :=
  visited ≠ [] → levels ≠ []

theorem hierRootInit_q (nodes : List GraphNode) (edges : List GraphEdge) :
    QInv (hierRootInit nodes edges).2.1 (hierRootInit nodes edges).2.2 := by
  unfold hierRootInit
  refine foldl_invariant _
    (fun (acc : List String × List (String × Nat) × List String) =>
      QInv acc.2.1 acc.2.2) ?_ nodes ([], [], []) ?_
  · intro acc b hq
    dsimp only
    split
    · intro _
      exact setNat_ne_nil _ _ _
    · exact hq
  · intro h2
    exact absurd rfl h2

theorem hierSeed_q (nodes : List GraphNode) (edges : List GraphEdge) :
    QInv (hierSeed nodes edges).2.1 (hierSeed nodes edges).2.2 := by
  unfold hierSeed
  split
  · split
    · intro _
      exact setNat_ne_nil _ _ _
    · exact hierRootInit_q nodes edges
  · exact hierRootInit_q nodes edges

theorem bfsStep_q (edges : List GraphEdge) (st : BfsSt) (hq : QInv st.levels st.visited) :
    QInv (bfsStep edges st).levels (bfsStep edges st).visited := by
  unfold bfsStep
  split
  · exact hq
  · rename_i current qrest heq
    have hfold := foldl_invariant
      (fun (acc : List String × List (String × Nat) × List String) e =>
        if e.source = current && !acc.2.2.contains e.target then
          (acc.1 ++ [e.target],
           setNat acc.2.1 e.target ((getNat st.levels current).getD 0 + 1),
           acc.2.2 ++ [e.target])
        else acc)
      (fun acc => QInv acc.2.1 acc.2.2)
      (fun acc b hq2 => by
        dsimp only
        split
        · intro _; exact setNat_ne_nil _ _ _
        · exact hq2)
      edges (qrest, st.levels, st.visited) hq
    exact hfold

theorem bfsRun_q (edges : List GraphEdge) :
    ∀ (fuel : Nat) (st : BfsSt), QInv st.levels st.visited →
      QInv (bfsRun edges fuel st).levels (bfsRun edges fuel st).visited
  | 0, _, hq => hq
  | fuel + 1, st, hq => by
    unfold bfsRun
    split
    · exact hq
    · exact bfsRun_q edges fuel (bfsStep edges st) (bfsStep_q edges st hq)

theorem hierFinal_ne (vis : List String) :
    ∀ (l : List GraphNode) (lv : List (String × Nat)),
      ((∃ n ∈ l, vis.contains n.id = false) ∨ lv ≠ []) →
      l.foldl (fun lv n => if vis.contains n.id then lv else setNat lv n.id 0) lv ≠ [] := by
  intro l
  induction l with
  | nil =>
    rintro lv (⟨n, hn, _⟩ | h)
    · simp at hn
    · exact h
  | cons n0 rest ih =>
    rintro lv (⟨n, hn, hnf⟩ | h)
    · rcases List.mem_cons.mp hn with rfl | hn2
      · refine ih _ (Or.inr ?_)
        dsimp only
        rw [hnf, if_neg (by simp)]
        exact setNat_ne_nil _ _ _
      · exact ih _ (Or.inl ⟨n, hn2, hnf⟩)
    · refine ih _ (Or.inr ?_)
      dsimp only
      split
      · exact h
      · exact setNat_ne_nil _ _ _

theorem hierLevels_ne (nodes : List GraphNode) (edges : List GraphEdge) (h : nodes ≠ []) :
    hierLevels nodes edges ≠ [] := by
  unfold hierLevels
  cases nodes with
  | nil => exact absurd rfl h
  | cons n0 rest =>
    by_cases hc : (hierBfs (n0 :: rest) edges).visited.contains n0.id
    · have hvis : (hierBfs (n0 :: rest) edges).visited ≠ [] := by
        intro hv
        rw [hv] at hc
        simp at hc
      have hq : QInv (hierBfs (n0 :: rest) edges).levels
          (hierBfs (n0 :: rest) edges).visited := by
        unfold hierBfs
        exact bfsRun_q edges _ _ (hierSeed_q (n0 :: rest) edges)
      exact hierFinal_ne _ _ _ (Or.inr (hq hvis))
    · exact hierFinal_ne _ _ _
        (Or.inl ⟨n0, List.mem_cons_self _ _, by simpa using hc⟩)

theorem enum_ne_nil {α : Type} (l : List α) (h : l ≠ []) : l.enum ≠ [] := by
  intro he
  have hl := congrArg List.length he
  rw [List.enum_length] at hl
  exact h (List.length_eq_zero.mp hl)

/-- Every value list stored by the insertion-ordered grouping fold is
    nonempty. -/
theorem groupFold_values_ne {κ β : Type} [DecidableEq κ] (key : β → κ) (val : β → String) :
    ∀ (l : List β) (gs : List (κ × List String)), (∀ g ∈ gs, g.2 ≠ []) →
      ∀ g ∈ l.foldl (fun gs b =>
          if gs.any (fun g => g.1 = key b) then
            gs.map (fun g => if g.1 = key b then (g.1, g.2 ++ [val b]) else g)
          else gs ++ [(key b, [val b])]) gs, g.2 ≠ [] := by
  intro l
  induction l with
  | nil =>
    intro gs h
    exact h
  | cons b rest ih =>
    intro gs h
    rw [List.foldl_cons]
    refine ih _ ?_
    dsimp only
    split
    · intro g hg
      rcases List.mem_map.mp hg with ⟨g0, hg0, rfl⟩
      split
      · simp
      · exact h g0 hg0
    · intro g hg
      rcases List.mem_append.mp hg with hg1 | hg1
      · exact h g hg1
      · simp only [List.mem_singleton] at hg1
        subst hg1
        simp

theorem groupFold_ne {κ β : Type} [DecidableEq κ] (key : β → κ) (val : β → String) :
    ∀ (l : List β) (gs : List (κ × List String)), (l ≠ [] ∨ gs ≠ []) →
      l.foldl (fun gs b =>
          if gs.any (fun g => g.1 = key b) then
            gs.map (fun g => if g.1 = key b then (g.1, g.2 ++ [val b]) else g)
          else gs ++ [(key b, [val b])]) gs ≠ [] := by
  refine foldl_ne_nil_always _ ?_
  intro gs b
  dsimp only
  split
  · rename_i hany
    cases gs with
    | nil => simp at hany
    | cons g0 gt => simp
  · simp

theorem hierLevelGroups_props (nodes : List GraphNode) (edges : List GraphEdge)
    (h : nodes ≠ []) :
    hierLevelGroups nodes edges ≠ [] ∧ ∀ g ∈ hierLevelGroups nodes edges, g.2 ≠ [] := by
  unfold hierLevelGroups
  constructor
  · exact groupFold_ne (fun kv => kv.2) (fun kv => kv.1) (hierLevels nodes edges) []
      (Or.inl (hierLevels_ne nodes edges h))
  · refine groupFold_values_ne (fun kv => kv.2) (fun kv => kv.1) (hierLevels nodes edges) [] ?_
    intro g hg
    simp at hg

theorem hierRawPositions_ne (nodes : List GraphNode) (edges : List GraphEdge)
    (h : nodes ≠ []) : hierRawPositions nodes edges ≠ [] := by
  obtain ⟨hg, hv⟩ := hierLevelGroups_props nodes edges h
  unfold hierRawPositions
  cases hLG : hierLevelGroups nodes edges with
  | nil => exact absurd hLG hg
  | cons g0 gs =>
    have hg0 : g0.2 ≠ [] := hv g0 (by rw [hLG]; exact List.mem_cons_self _ _)
    refine foldl_ne_nil_exists _ ?_ _ _ (Or.inl ⟨g0, List.mem_cons_self _ _, ?_⟩)
    · intro pm g hpm
      dsimp only
      refine foldl_ne_nil_always _ ?_ _ _ (Or.inr hpm)
      intro acc b
      exact setPos_ne_nil _ _ _
    · intro pm
      dsimp only
      refine foldl_ne_nil_always _ ?_ _ _ (Or.inl (enum_ne_nil _ hg0))
      intro acc b
      exact setPos_ne_nil _ _ _

theorem circularGroups_props (nodes : List GraphNode) (h : nodes ≠ []) :
    circularGroups nodes ≠ [] ∧ ∀ g ∈ circularGroups nodes, g.2 ≠ [] := by
  unfold circularGroups
  constructor
  · exact groupFold_ne (fun n => n.type) (fun n => n.id) nodes [] (Or.inl h)
  · refine groupFold_values_ne (fun n => n.type) (fun n => n.id) nodes [] ?_
    intro g hg
    simp at hg

theorem circularGroupIds_mem_ne (nodes : List GraphNode) (h : nodes ≠ []) :
    ∀ ids ∈ circularGroupIds nodes, ids ≠ [] := by
  intro ids hids
  unfold circularGroupIds at hids
  rcases List.mem_map.mp hids with ⟨g, hgmem, rfl⟩
  exact (circularGroups_props nodes h).2 g hgmem

theorem circularRawPositions_ne (ops : NumOps) (nodes : List GraphNode)
    (h : nodes ≠ []) : circularRawPositions ops nodes ≠ [] := by
  have hgi : circularGroupIds nodes ≠ [] := by
    unfold circularGroupIds
    intro hc
    exact (circularGroups_props nodes h).1 (List.map_eq_nil_iff.mp hc)
  unfold circularRawPositions
  split
  · dsimp only
    have hids : (circularGroupIds nodes).headD [] ≠ [] := by
      cases hI : circularGroupIds nodes with
      | nil => exact absurd hI hgi
      | cons i0 is =>
        exact circularGroupIds_mem_ne nodes h i0 (by rw [hI]; exact List.mem_cons_self _ _)
    refine foldl_ne_nil_always _ ?_ _ _ (Or.inl (enum_ne_nil _ hids))
    intro acc b
    exact setPos_ne_nil _ _ _
  · cases hI : circularGroupIds nodes with
    | nil => exact absurd hI hgi
    | cons i0 is =>
      have hi0 : i0 ≠ [] :=
        circularGroupIds_mem_ne nodes h i0 (by rw [hI]; exact List.mem_cons_self _ _)
      rw [List.enum_cons]
      refine foldl_ne_nil_exists _ ?_ _ _ (Or.inl ⟨(0, i0), List.mem_cons_self _ _, ?_⟩)
      · intro pm g hpm
        dsimp only
        refine foldl_ne_nil_always _ ?_ _ _ (Or.inr hpm)
        intro acc b
        exact setPos_ne_nil _ _ _
      · intro pm
        dsimp only
        refine foldl_ne_nil_always _ ?_ _ _ (Or.inl (enum_ne_nil _ hi0))
        intro acc b
        exact setPos_ne_nil _ _ _

/-- A placeholder numeric environment for closed statements: the properties
    stated at it are independent of the values of cos, sin, and sqrt. -/
def numOpsArb : NumOps := ⟨fun _ _ => 0, fun _ _ => 0, fun _ => 0⟩

/-- The documented defaults merged by applyLayout. -/
def defaultLayoutOptions : LayoutOptions :=
  ⟨300, 200, 1 / 10, 1000, 9 / 10, 1500, 1 / 100⟩

theorem getNodeAtPosGo_eq_find (w : Point) :
    ∀ nodes : List GraphNode,
      getNodeAtPosGo w nodes = nodes.find? (fun n => distSq w n.position ≤ 400) := by
  intro nodes
  induction nodes with
  | nil => rfl
  | cons n rest ih =>
    simp only [getNodeAtPosGo, List.find?_cons]
    by_cases hd : distSq w n.position ≤ 400
    · simp [hd]
    · simp [hd, ih]

/-- A sample entity node used by closed statements. -/
def nodeAt (id label : String) (x y : ℚ) : GraphNode :=
  { id := id, label := label, type := .entity, position := ⟨x, y⟩,
    color := none, size := none, isHypergraph := none,
    metadata := { originalExpression := none, occurrences := 1, isGenerated := none } }

/-- C7 (amended): getNodeAtPosition returns the first node in array order
    whose world-space distance from the transformed position is within the
    radius (20 world units, compared squared against 400), and null exactly
    when every node is farther than that. It does not select the nearest
    such node, and the radius is in world units, so the effective pixel
    radius scales with the zoom. -/
theorem c7_hit_test (nodes : List GraphNode) (p : Point) (t : Transform) :
    getNodeAtPosition nodes p t
      = nodes.find? (fun n => distSq (screenToWorld p t) n.position ≤ 400)
    ∧ (getNodeAtPosition nodes p t = none ↔
        ∀ n ∈ nodes, 400 < distSq (screenToWorld p t) n.position) := by
  constructor
  · exact getNodeAtPosGo_eq_find _ nodes
  · rw [show getNodeAtPosition nodes p t = getNodeAtPosGo (screenToWorld p t) nodes from rfl,
      getNodeAtPosGo_eq_find]
    rw [List.find?_eq_none]
    constructor
    · intro hnone n hn
      have := hnone n hn
      simpa using this
    · intro hall n hn
      simpa using hall n hn

/-- C7 counterexample: with two nodes both inside the hit radius, the first
    in array order is returned even though the second is strictly nearer, so
    the hit test is not a nearest-node test. -/
theorem c7_counterexample :
    (getNodeAtPosition [nodeAt "a" "A" 15 0, nodeAt "b" "B" 1 0]
        ⟨0, 0⟩ ⟨0, 0, 1⟩).map (fun n => n.id) = some "a"
    ∧ distSq (screenToWorld ⟨0, 0⟩ ⟨0, 0, 1⟩) (nodeAt "b" "B" 1 0).position
        < distSq (screenToWorld ⟨0, 0⟩ ⟨0, 0, 1⟩) (nodeAt "a" "A" 15 0).position
    ∧ distSq (screenToWorld ⟨0, 0⟩ ⟨0, 0, 1⟩) (nodeAt "b" "B" 1 0).position ≤ 400 := by
  refine ⟨?_, ?_, ?_⟩ <;>
    norm_num [getNodeAtPosition, getNodeAtPosGo, screenToWorld, distSq, nodeAt]

/-- C8: stopLayout called while an animation is in flight clears the
    animating flag and leaves every node position exactly as it was: the
    node list is not modified, in particular there is no snap to the target
    positions. -/
theorem c8_stop_layout (s : EngineState) (h1 : s.layoutState.isAnimating = true)
    (h2 : s.layoutState.progress < 1) :
    (stopLayout s).layoutState.isAnimating = false ∧ (stopLayout s).nodes = s.nodes :=
  ⟨rfl, rfl⟩

/-- A mid-animation engine state used by the C8 witness. -/
def engineStateEx : EngineState :=
  { nodes := [nodeAt "a" "A" 3 4], edges := [],
    layoutState := { isAnimating := true, progress := 1 / 2,
                     algorithm := "force-directed", startTime := 0, duration := 1500 },
    targetPositions := [("a", ⟨30, 40⟩)],
    animationFrameId := some 7 }

theorem c8_stop_layout_witness :
    (engineStateEx.layoutState.isAnimating = true
      ∧ engineStateEx.layoutState.progress < 1)
    ∧ ((stopLayout engineStateEx).layoutState.isAnimating = false
      ∧ (stopLayout engineStateEx).nodes = engineStateEx.nodes) :=
  ⟨⟨rfl, by norm_num [engineStateEx]⟩,
   c8_stop_layout engineStateEx rfl (by norm_num [engineStateEx])⟩

/-- C4 (amended): for every nonempty node set, the force-directed and
    hierarchical layouts preserve the centroid of the current positions; the
    circular layout does so for node sets with at least two nodes, while a
    single node is placed at the origin without the centering post-pass. -/
theorem c4_centroid_preserved (ops : NumOps) (opts : LayoutOptions)
    (nodes : List GraphNode) (edges : List GraphEdge) (h : nodes ≠ []) :
    centroid ((calculateForceDirectedLayout ops opts nodes edges).map (fun kv => kv.2))
        = centroid (nodes.map (fun n => n.position))
    ∧ centroid ((calculateHierarchicalLayout opts nodes edges).map (fun kv => kv.2))
        = centroid (nodes.map (fun n => n.position))
    ∧ (2 ≤ nodes.length →
        centroid ((calculateCircularLayout ops opts nodes).map (fun kv => kv.2))
          = centroid (nodes.map (fun n => n.position))) := by
  refine ⟨?_, ?_, ?_⟩
  · exact centerLayoutPositions_centroid nodes _ (fdRawPositions_ne ops opts nodes edges h)
  · exact centerLayoutPositions_centroid nodes _ (hierRawPositions_ne nodes edges h)
  · intro h2
    match nodes, h, h2 with
    | a :: b :: rest, _, _ =>
      exact centerLayoutPositions_centroid (a :: b :: rest) _
        (circularRawPositions_ne ops (a :: b :: rest) (by simp))

theorem c4_centroid_preserved_witness :
    ([nodeAt "a" "A" 0 0, nodeAt "b" "B" 100 0] ≠ ([] : List GraphNode))
    ∧ (centroid ((calculateForceDirectedLayout numOpsArb defaultLayoutOptions
          [nodeAt "a" "A" 0 0, nodeAt "b" "B" 100 0] []).map (fun kv => kv.2))
        = centroid ([nodeAt "a" "A" 0 0, nodeAt "b" "B" 100 0].map (fun n => n.position))
      ∧ centroid ((calculateHierarchicalLayout defaultLayoutOptions
          [nodeAt "a" "A" 0 0, nodeAt "b" "B" 100 0] []).map (fun kv => kv.2))
        = centroid ([nodeAt "a" "A" 0 0, nodeAt "b" "B" 100 0].map (fun n => n.position))
      ∧ (2 ≤ [nodeAt "a" "A" 0 0, nodeAt "b" "B" 100 0].length →
          centroid ((calculateCircularLayout numOpsArb defaultLayoutOptions
            [nodeAt "a" "A" 0 0, nodeAt "b" "B" 100 0]).map (fun kv => kv.2))
          = centroid ([nodeAt "a" "A" 0 0, nodeAt "b" "B" 100 0].map (fun n => n.position)))) :=
  ⟨by simp, c4_centroid_preserved numOpsArb defaultLayoutOptions
    [nodeAt "a" "A" 0 0, nodeAt "b" "B" 100 0] [] (by simp)⟩

/-- C4 counterexample: the circular layout on a single node away from the
    origin moves the centroid to the origin, so centroid preservation fails
    as stated for every nonempty node set and all three algorithms. -/
theorem c4_counterexample :
    centroid ((calculateCircularLayout numOpsArb defaultLayoutOptions
        [nodeAt "n1" "N1" 5 5]).map (fun kv => kv.2))
      ≠ centroid ([nodeAt "n1" "N1" 5 5].map (fun n => n.position)) := by
  norm_num [calculateCircularLayout, centroid, nodeAt, Point.mk.injEq]

/-- C2: the hypergraph example line yields exactly one HypergraphStructure
    with subjects ["Alice"] and objects ["likes","Bob","Carol"], four entity
    nodes plus one intermediate hypergraph node, and four undirected
    hypergraph_connection edges from each entity to the intermediate node.
    The statement holds for every numeric environment. -/
theorem c2_hypergraph_example (ops : NumOps) :
    ((transformTriplestoGraph ops 0
        (extractTriples "(believes Alice (likes Bob Carol))")).1.hypergraphs
      = [{ id := "hypergraph-1", predicate := "believes", subjects := ["Alice"],
           objects := ["likes", "Bob", "Carol"],
           intermediateNodeId := "believes-group-1" }])
    ∧ ((transformTriplestoGraph ops 0
        (extractTriples "(believes Alice (likes Bob Carol))")).1.nodes.map
          (fun n => (n.id, n.type))
      = [("alice", .entity), ("likes", .entity), ("bob", .entity), ("carol", .entity),
         ("believes-group-1", .hypergraph)])
    ∧ ((transformTriplestoGraph ops 0
        (extractTriples "(believes Alice (likes Bob Carol))")).1.edges.map
          (fun e => (e.source, e.target, e.directed, e.type))
      = [("alice", "believes-group-1", false, .hypergraph_connection),
         ("likes", "believes-group-1", false, .hypergraph_connection),
         ("bob", "believes-group-1", false, .hypergraph_connection),
         ("carol", "believes-group-1", false, .hypergraph_connection)]) :=
  ⟨rfl, rfl, rfl⟩

/-- C3: parsing "(gender Chandler M)" on two lines yields exactly two nodes,
    for Chandler and M, each with two occurrences, and exactly one directed
    relation edge from the Chandler node to the M node: the duplicate edge
    id is skipped. The statement holds for every numeric environment. -/
theorem c3_duplicate_line_idempotence (ops : NumOps) :
    ((parse ops 0 "(gender Chandler M)\n(gender Chandler M)").1.nodes.map
        (fun n => (n.id, n.metadata.occurrences))
      = [("chandler", 2), ("m", 2)])
    ∧ ((parse ops 0 "(gender Chandler M)\n(gender Chandler M)").1.edges.map
        (fun e => (e.id, e.source, e.target, e.directed, e.type))
      = [("gender-chandler-m", "chandler", "m", true, .relation)]) :=
  ⟨rfl, rfl⟩

/-! C1 machinery: counter independence and label-derived ids for
    hypergraph-free texts. -/

theorem snd_mem_of_mem_enumFrom {α : Type} :
    ∀ (n : Nat) (l : List α) (p : Nat × α), p ∈ l.enumFrom n → p.2 ∈ l
  | _, [], p, h => absurd h (List.not_mem_nil p)
  | n, a :: l, p, h => by
    rw [List.enumFrom] at h
    rcases List.mem_cons.mp h with rfl | h2
    · exact List.mem_cons_self _ _
    · exact List.mem_cons_of_mem _ (snd_mem_of_mem_enumFrom (n + 1) l p h2)

theorem transformStep_nonhyper (ops : NumOps) (st : TransformSt) (p : Nat × Triple)
    (hp : p.2.isHypergraph = false) :
    transformStep ops st p =
      { st with nodes := (processSimpleTriple p.2 st.nodes st.edges p.1).1,
                edges := (processSimpleTriple p.2 st.nodes st.edges p.1).2 } := by
  unfold transformStep
  rw [if_neg (by simp [hp])]

theorem transformFold_counter_indep (ops : NumOps) :
    ∀ (l : List (Nat × Triple)), (∀ p ∈ l, p.2.isHypergraph = false) →
    ∀ (n : List GraphNode) (e : List GraphEdge) (hg : List HypergraphStructure)
      (c c' : Nat),
      (l.foldl (transformStep ops) ⟨n, e, hg, c⟩).nodes
          = (l.foldl (transformStep ops) ⟨n, e, hg, c'⟩).nodes
      ∧ (l.foldl (transformStep ops) ⟨n, e, hg, c⟩).edges
          = (l.foldl (transformStep ops) ⟨n, e, hg, c'⟩).edges := by
  intro l
  induction l with
  | nil =>
    intro _ n e hg c c'
    exact ⟨rfl, rfl⟩
  | cons p rest ih =>
    intro hall n e hg c c'
    rw [List.foldl_cons, List.foldl_cons]
    have hp := hall p (List.mem_cons_self _ _)
    rw [transformStep_nonhyper ops _ p hp, transformStep_nonhyper ops _ p hp]
    exact ih (fun q hq => hall q (List.mem_cons_of_mem _ hq)) _ _ _ c c'

/-- A node whose id is the content-address of its label. -/
def goodNode (n : GraphNode) : Prop := n.id = generateNodeId n.label

theorem bumpOccurrences_good (n : GraphNode) (h : goodNode n) :
    goodNode (bumpOccurrences n) := h

theorem setNodeProps_good (pred : String) (n : GraphNode) (h : goodNode n) :
    goodNode (setNodeProps pred n) := by
  unfold setNodeProps goodNode
  cases hc : n.color
  · dsimp only
    split
    · exact h
    · exact h
  · dsimp only
    split
    · exact h
    · exact h

theorem updateFirstNode_good (k : String) (f : GraphNode → GraphNode)
    (hf : ∀ n, goodNode n → goodNode (f n)) :
    ∀ (l : List GraphNode), (∀ n ∈ l, goodNode n) →
      ∀ n ∈ updateFirstNode k f l, goodNode n := by
  intro l
  induction l with
  | nil =>
    intro _ n hn
    exact absurd hn (List.not_mem_nil n)
  | cons m rest ih =>
    intro hall n hn
    unfold updateFirstNode at hn
    split at hn
    · rcases List.mem_cons.mp hn with rfl | h2
      · exact hf m (hall m (List.mem_cons_self _ _))
      · exact hall n (List.mem_cons_of_mem _ h2)
    · rcases List.mem_cons.mp hn with rfl | h2
      · exact hall n (List.mem_cons_self _ _)
      · exact ih (fun q hq => hall q (List.mem_cons_of_mem _ hq)) n h2

theorem createOrUpdateNode_good (label : String) (pos : Point) (nodes : List GraphNode)
    (h : ∀ n ∈ nodes, goodNode n) :
    ∀ n ∈ (createOrUpdateNode nodes label pos).1, goodNode n := by
  unfold createOrUpdateNode
  dsimp only
  split
  · dsimp only
    exact updateFirstNode_good _ _ bumpOccurrences_good nodes h
  · dsimp only
    intro n hn
    rcases List.mem_append.mp hn with h2 | h2
    · exact h n h2
    · simp only [List.mem_singleton] at h2
      subst h2
      rfl

theorem setNodeProperties_good (pred : String) :
    ∀ (ids : List String) (nodes : List GraphNode), (∀ n ∈ nodes, goodNode n) →
      ∀ n ∈ setNodeProperties nodes ids pred, goodNode n := by
  intro ids
  induction ids with
  | nil =>
    intro nodes h
    exact h
  | cons i rest ih =>
    intro nodes h
    unfold setNodeProperties
    rw [List.foldl_cons]
    exact ih _ (updateFirstNode_good i _ (setNodeProps_good pred) nodes h)

theorem createFold_good (pos : Nat → String → Point) :
    ∀ (l : List (Nat × String)) (st : List GraphNode × List String),
      (∀ n ∈ st.1, goodNode n) →
      ∀ n ∈ (l.foldl (fun (st : List GraphNode × List String) p =>
          ((createOrUpdateNode st.1 p.2 (pos p.1 p.2)).1,
           st.2 ++ [(createOrUpdateNode st.1 p.2 (pos p.1 p.2)).2.id])) st).1, goodNode n := by
  intro l
  induction l with
  | nil =>
    intro st h
    exact h
  | cons p rest ih =>
    intro st h
    rw [List.foldl_cons]
    exact ih _ (createOrUpdateNode_good p.2 (pos p.1 p.2) st.1 h)

theorem processSimpleTriple_good (tp : Triple) (nodes : List GraphNode)
    (edges : List GraphEdge) (idx : Nat) (h : ∀ n ∈ nodes, goodNode n) :
    ∀ n ∈ (processSimpleTriple tp nodes edges idx).1, goodNode n := by
  unfold processSimpleTriple
  dsimp only
  refine setNodeProperties_good tp.predicate _ _ ?_
  refine createFold_good
    (fun i _ => ⟨(((svalToList tp.subject).length : ℚ) + (i : ℚ)) * 120
        - (((svalToList tp.subject).length : ℚ) - 1) * 60, (idx : ℚ) * 100⟩) _ _ ?_
  exact createFold_good
    (fun i _ => ⟨(i : ℚ) * 120 - (((svalToList tp.subject).length : ℚ) - 1) * 60,
      (idx : ℚ) * 100⟩) _ _ h

theorem transform_nodes_good (ops : NumOps) :
    ∀ (l : List (Nat × Triple)) (st : TransformSt),
      (∀ p ∈ l, p.2.isHypergraph = false) → (∀ n ∈ st.nodes, goodNode n) →
      ∀ n ∈ (l.foldl (transformStep ops) st).nodes, goodNode n := by
  intro l
  induction l with
  | nil =>
    intro st _ h
    exact h
  | cons p rest ih =>
    intro st hall h
    rw [List.foldl_cons, transformStep_nonhyper ops st p (hall p (List.mem_cons_self _ _))]
    exact ih _ (fun q hq => hall q (List.mem_cons_of_mem _ hq))
      (processSimpleTriple_good p.2 st.nodes st.edges p.1 h)

/-- C1 (amended): for texts containing no hypergraph facts, two successive
    parse calls on the same parser yield identical node id lists and edge id
    lists, and every node id is generateNodeId of its label. For texts with
    hypergraph facts this fails: the intermediate node ids incorporate the
    transformer's counter, which advances across parse calls, so successive
    parses produce different intermediate node ids. -/
theorem c1_reparse_ids (ops : NumOps) (text : String) (c : Nat)
    (h : ∀ t ∈ extractTriples text, t.isHypergraph = false) :
    ((parse ops c text).1.nodes.map (fun n => n.id)
        = (parse ops (parse ops c text).2 text).1.nodes.map (fun n => n.id))
    ∧ ((parse ops c text).1.edges.map (fun e => e.id)
        = (parse ops (parse ops c text).2 text).1.edges.map (fun e => e.id))
    ∧ ∀ n ∈ (parse ops c text).1.nodes, n.id = generateNodeId n.label := by
  have henum : ∀ p ∈ (extractTriples text).enum, p.2.isHypergraph = false :=
    fun p hp => h p.2 (snd_mem_of_mem_enumFrom 0 _ p hp)
  have hindep := transformFold_counter_indep ops (extractTriples text).enum henum
    [] [] [] c (parse ops c text).2
  refine ⟨?_, ?_, ?_⟩
  · exact congrArg (List.map (fun n => n.id)) hindep.1
  · exact congrArg (fun e => (detectBidirectionalRelationships e).map (fun x => x.id))
      hindep.2
  · exact transform_nodes_good ops (extractTriples text).enum ⟨[], [], [], c⟩ henum
      (fun n hn => absurd hn (List.not_mem_nil n))

theorem c1_reparse_ids_witness :
    (∀ t ∈ extractTriples "(gender Chandler M)", t.isHypergraph = false)
    ∧ (((parse numOpsArb 0 "(gender Chandler M)").1.nodes.map (fun n => n.id)
        = (parse numOpsArb (parse numOpsArb 0 "(gender Chandler M)").2
            "(gender Chandler M)").1.nodes.map (fun n => n.id))
      ∧ ((parse numOpsArb 0 "(gender Chandler M)").1.edges.map (fun e => e.id)
        = (parse numOpsArb (parse numOpsArb 0 "(gender Chandler M)").2
            "(gender Chandler M)").1.edges.map (fun e => e.id))
      ∧ ∀ n ∈ (parse numOpsArb 0 "(gender Chandler M)").1.nodes,
          n.id = generateNodeId n.label) :=
  ⟨by decide, c1_reparse_ids numOpsArb "(gender Chandler M)" 0 (by decide)⟩

/-- C1 counterexample: re-parsing the hypergraph example on the same parser
    produces a different intermediate node id ("believes-group-1" in the
    first parse, absent from the second), so the node id sets differ. -/
theorem c1_counterexample :
    ("believes-group-1" ∈ (parse numOpsArb 0
        "(believes Alice (likes Bob Carol))").1.nodes.map (fun n => n.id))
    ∧ ("believes-group-1" ∉ (parse numOpsArb
        (parse numOpsArb 0 "(believes Alice (likes Bob Carol))").2
        "(believes Alice (likes Bob Carol))").1.nodes.map (fun n => n.id)) := by
  refine ⟨by decide, by decide⟩

/-! C5 machinery: the second pass keeps the first edge of every forward key. -/

theorem detectSecondPass_subset :
    ∀ (l : List GraphEdge) (pr : List String), ∀ e ∈ detectSecondPass l pr, e ∈ l := by
  intro l
  induction l with
  | nil =>
    intro pr e he
    exact absurd he (List.not_mem_nil e)
  | cons e0 rest ih =>
    intro pr e he
    unfold detectSecondPass at he
    split at he
    · exact List.mem_cons_of_mem _ (ih pr e he)
    · rcases List.mem_cons.mp he with rfl | h2
      · exact List.mem_cons_self _ _
      · exact List.mem_cons_of_mem _ (ih _ e h2)

theorem detectSecondPass_key_covered :
    ∀ (l : List GraphEdge) (pr : List String) (e : GraphEdge), e ∈ l →
      (fkey e ∈ pr) ∨ ∃ e2 ∈ detectSecondPass l pr, fkey e2 = fkey e := by
  intro l
  induction l with
  | nil =>
    intro pr e he
    exact absurd he (List.not_mem_nil e)
  | cons e0 rest ih =>
    intro pr e he
    unfold detectSecondPass
    rcases List.mem_cons.mp he with rfl | h2
    · split
      · rename_i hcon
        exact Or.inl (by simpa using hcon)
      · exact Or.inr ⟨e, List.mem_cons_self _ _, rfl⟩
    · split
      · exact ih pr e h2
      · rcases ih (pr ++ [fkey e0]) e h2 with h3 | ⟨e2, he2, hk⟩
        · rcases List.mem_append.mp h3 with h4 | h4
          · exact Or.inl h4
          · simp only [List.mem_singleton] at h4
            exact Or.inr ⟨e0, List.mem_cons_self _ _, h4.symm⟩
        · exact Or.inr ⟨e2, List.mem_cons_of_mem _ he2, hk⟩

theorem detect_key_covered (edges : List GraphEdge) (e : GraphEdge) (he : e ∈ edges) :
    ∃ e2 ∈ detectBidirectionalRelationships edges, fkey e2 = fkey e := by
  rcases detectSecondPass_key_covered edges [] e he with h | h
  · exact absurd h (List.not_mem_nil _)
  · exact h

theorem detect_subset (edges : List GraphEdge) :
    ∀ e ∈ detectBidirectionalRelationships edges, e ∈ edges :=
  detectSecondPass_subset edges []

/-- C5 (amended): whenever a directed edge s→t with label L coexists with
    its reverse t→s with the same label, and the hyphen-concatenated forward
    keys of the edges in the list do not collide across distinct
    (source, target, label) triples, the output of
    detectBidirectionalRelationships still contains a directed edge for each
    side of the pair: the pair is detected but never merged. Without the
    no-collision hypothesis this fails, because deduplication is by the
    concatenated key string. -/
theorem c5_bidirectional_kept (edges : List GraphEdge) (s t L : String) (hst : s ≠ t)
    (hinj : ∀ e1 ∈ edges, ∀ e2 ∈ edges, fkey e1 = fkey e2 →
        e1.source = e2.source ∧ e1.target = e2.target ∧ e1.label = e2.label)
    (h1 : ∃ e ∈ edges, e.source = s ∧ e.target = t ∧ e.label = L)
    (h2 : ∃ e ∈ edges, e.source = t ∧ e.target = s ∧ e.label = L) :
    (∃ e ∈ detectBidirectionalRelationships edges,
        e.source = s ∧ e.target = t ∧ e.label = L)
    ∧ (∃ e ∈ detectBidirectionalRelationships edges,
        e.source = t ∧ e.target = s ∧ e.label = L) := by
  constructor
  · obtain ⟨e, he, hs, htg, hl⟩ := h1
    obtain ⟨e2, he2, hk⟩ := detect_key_covered edges e he
    obtain ⟨hs2, ht2, hl2⟩ := hinj e2 (detect_subset edges e2 he2) e he hk
    exact ⟨e2, he2, hs2.trans hs, ht2.trans htg, hl2.trans hl⟩
  · obtain ⟨e, he, hs, htg, hl⟩ := h2
    obtain ⟨e2, he2, hk⟩ := detect_key_covered edges e he
    obtain ⟨hs2, ht2, hl2⟩ := hinj e2 (detect_subset edges e2 he2) e he hk
    exact ⟨e2, he2, hs2.trans hs, ht2.trans htg, hl2.trans hl⟩

/-- A directed relation edge used by closed statements. -/
def edgeC (id source target label : String) : GraphEdge :=
  { id := id, source := source, target := target, label := label,
    directed := true, type := .relation, color := none }

theorem c5_bidirectional_kept_witness :
    (("x" : String) ≠ "y"
      ∧ (∀ e1 ∈ [edgeC "1" "x" "y" "r", edgeC "2" "y" "x" "r"],
          ∀ e2 ∈ [edgeC "1" "x" "y" "r", edgeC "2" "y" "x" "r"],
            fkey e1 = fkey e2 →
              e1.source = e2.source ∧ e1.target = e2.target ∧ e1.label = e2.label)
      ∧ (∃ e ∈ [edgeC "1" "x" "y" "r", edgeC "2" "y" "x" "r"],
          e.source = "x" ∧ e.target = "y" ∧ e.label = "r")
      ∧ (∃ e ∈ [edgeC "1" "x" "y" "r", edgeC "2" "y" "x" "r"],
          e.source = "y" ∧ e.target = "x" ∧ e.label = "r"))
    ∧ ((∃ e ∈ detectBidirectionalRelationships
          [edgeC "1" "x" "y" "r", edgeC "2" "y" "x" "r"],
          e.source = "x" ∧ e.target = "y" ∧ e.label = "r")
      ∧ (∃ e ∈ detectBidirectionalRelationships
          [edgeC "1" "x" "y" "r", edgeC "2" "y" "x" "r"],
          e.source = "y" ∧ e.target = "x" ∧ e.label = "r")) :=
  ⟨⟨by decide, by decide, by decide, by decide⟩,
   c5_bidirectional_kept [edgeC "1" "x" "y" "r", edgeC "2" "y" "x" "r"] "x" "y" "r"
     (by decide) (by decide) (by decide) (by decide)⟩

/-- C5 counterexample: the hyphen-concatenated forward key of
    ("a", "b-x", "y") collides with that of ("a-b", "x", "y"); the second
    pass therefore drops the forward member of the bidirectional pair
    ("a-b" -> "x", "x" -> "a-b"), so the output no longer contains both
    directed edges of the pair. -/
theorem c5_counterexample :
    ((∃ e ∈ [edgeC "1" "a" "b-x" "y", edgeC "2" "a-b" "x" "y", edgeC "3" "x" "a-b" "y"],
        e.source = "a-b" ∧ e.target = "x" ∧ e.label = "y")
      ∧ (∃ e ∈ [edgeC "1" "a" "b-x" "y", edgeC "2" "a-b" "x" "y", edgeC "3" "x" "a-b" "y"],
          e.source = "x" ∧ e.target = "a-b" ∧ e.label = "y")
      ∧ ("a-b" : String) ≠ "x")
    ∧ ¬ (∃ e ∈ detectBidirectionalRelationships
          [edgeC "1" "a" "b-x" "y", edgeC "2" "a-b" "x" "y", edgeC "3" "x" "a-b" "y"],
          e.source = "a-b" ∧ e.target = "x" ∧ e.label = "y") := by
  refine ⟨⟨by decide, by decide, by decide⟩, by decide⟩

/-! C6 and C9 machinery: single-line texts and per-line structure. -/

theorem splitLines_single : ∀ (l : List Char), (∀ c ∈ l, c ≠ '\n') →
    splitLines l = [l] := by
  intro l
  induction l with
  | nil => intro _; rfl
  | cons c rest ih =>
    intro h
    unfold splitLines
    rw [if_neg (h c (List.mem_cons_self _ _))]
    rw [ih (fun x hx => h x (List.mem_cons_of_mem _ hx))]

theorem validateSyntax_single (raw : List Char) (hnl : ∀ c ∈ raw, c ≠ '\n') :
    (validateSyntax (String.mk raw)).errors = (validateLine 0 raw).1
    ∧ (validateSyntax (String.mk raw)).warnings = (validateLine 0 raw).2
    ∧ (validateSyntax (String.mk raw)).isValid = ((validateLine 0 raw).1.length == 0) := by
  unfold validateSyntax
  rw [show (String.mk raw).data = raw from rfl, splitLines_single raw hnl]
  refine ⟨by simp, by simp, by simp⟩

/-- C6 (amended): for every single non-blank, non-comment line that starts
    with '(' and ends with ')', has balanced parentheses, and has length
    greater than two, if splitting the interior on whitespace yields fewer
    than two parts then validateSyntax emits the
    "must have at least a predicate and one argument" error and isValid is
    false. The two-character line "()" is excluded: the source's
    line.length > 2 guard skips the minimum-content check there, so "()"
    validates with no error. -/
theorem c6_min_content_error (raw : List Char)
    (hnl : ∀ c ∈ raw, c ≠ '\n')
    (hne : (trimChars raw).isEmpty = false)
    (hcm : (trimChars raw).head? ≠ some ';')
    (hop : (trimChars raw).head? = some '(')
    (hscan : (parenScanAux (trimChars raw) 0 0 (-1)).1 = none)
    (hbal : (parenScanAux (trimChars raw) 0 0 (-1)).2.1 = 0)
    (hlen : (trimChars raw).length > 2)
    (hparts : (jsSplitWs (trimChars (((trimChars raw).drop 1).dropLast))).length < 2) :
    (validateSyntax (String.mk raw)).isValid = false
    ∧ (⟨1, 1, "Expression must have at least a predicate and one argument", .error⟩ :
        ParseError) ∈ (validateSyntax (String.mk raw)).errors := by
  have hline : (validateLine 0 raw).1 =
      [⟨1, 1, "Expression must have at least a predicate and one argument", .error⟩] := by
    unfold validateLine
    rw [if_neg (by simp [hne, hcm])]
    rw [if_neg (fun hcon => hcon hop)]
    rcases hPS : parenScanAux (trimChars raw) 0 0 (-1) with ⟨o, cnt, lo⟩
    have ho : o = none := by rw [hPS] at hscan; exact hscan
    have hcnt : cnt = 0 := by rw [hPS] at hbal; exact hbal
    subst ho
    subst hcnt
    dsimp only
    rw [if_neg (show ¬((0 : Int) > 0) from by norm_num)]
    rw [if_pos hlen]
    dsimp only
    rw [if_pos hparts]
  obtain ⟨he, _, hv⟩ := validateSyntax_single raw hnl
  constructor
  · rw [hv, hline]
    rfl
  · rw [he, hline]
    exact List.mem_cons_self _ _

theorem c6_min_content_error_witness :
    ((∀ c ∈ ("(a)".data), c ≠ '\n')
      ∧ (trimChars ("(a)".data)).isEmpty = false
      ∧ (trimChars ("(a)".data)).head? ≠ some ';'
      ∧ (trimChars ("(a)".data)).head? = some '('
      ∧ (parenScanAux (trimChars ("(a)".data)) 0 0 (-1)).1 = none
      ∧ (parenScanAux (trimChars ("(a)".data)) 0 0 (-1)).2.1 = 0
      ∧ (trimChars ("(a)".data)).length > 2
      ∧ (jsSplitWs (trimChars (((trimChars ("(a)".data)).drop 1).dropLast))).length < 2)
    ∧ ((validateSyntax (String.mk ("(a)".data))).isValid = false
      ∧ (⟨1, 1, "Expression must have at least a predicate and one argument", .error⟩ :
          ParseError) ∈ (validateSyntax (String.mk ("(a)".data))).errors) :=
  ⟨⟨by decide, by decide, by decide, by decide, by decide, by decide, by decide, by decide⟩,
   c6_min_content_error ("(a)".data) (by decide) (by decide) (by decide) (by decide)
     (by decide) (by decide) (by decide) (by decide)⟩

/-- C6 counterexample: the line "()" is balanced with zero interior parts,
    yet validateSyntax reports no error and isValid stays true, because the
    minimum-content check only runs for lines longer than two characters. -/
theorem c6_counterexample :
    (validateSyntax "()").isValid = true ∧ (validateSyntax "()").errors = [] := by
  refine ⟨by decide, by decide⟩

/-- The per-line triple extraction applied by extractTriples. -/
def lineTriple (line : List Char) : Option Triple :=
  if (trimChars line).isEmpty || (trimChars line).head? = some ';' then none
  else
    match parseExpression (trimChars line) with
    | none => none
    | some parsed => expressionToTriple parsed

theorem extractTriplesGo_eq_filterMap :
    ∀ l : List (List Char), extractTriplesGo l = l.filterMap lineTriple := by
  intro l
  induction l with
  | nil => rfl
  | cons line rest ih =>
    rw [List.filterMap_cons]
    unfold extractTriplesGo
    dsimp only
    by_cases hc : ((trimChars line).isEmpty || (trimChars line).head? = some ';') = true
    · rw [if_pos hc, show lineTriple line = none from by unfold lineTriple; rw [if_pos hc]]
      exact ih
    · rw [if_neg hc, show lineTriple line =
        (match parseExpression (trimChars line) with
          | none => none
          | some parsed => expressionToTriple parsed) from by
            unfold lineTriple; rw [if_neg hc]]
      rcases hP : parseExpression (trimChars line) with _ | parsed
      · dsimp only
        exact ih
      · dsimp only
        rcases hT : expressionToTriple parsed with _ | t
        · dsimp only
          exact ih
        · dsimp only
          rw [ih]

/-- C9: the validator and the extractor are total functions returning
    complete result objects: isValid is true exactly when the error list is
    empty, and the extracted triples are a per-line filterMap over the split
    input, so a malformed or skipped line contributes no triple and the
    remaining lines are unaffected. (Totality itself is witnessed by these
    being plain terminating Lean functions over arbitrary strings; resource
    exhaustion such as call-stack overflow is outside the embedding.) -/
theorem c9_total_results (text : String) :
    ((validateSyntax text).isValid = true ↔ (validateSyntax text).errors = [])
    ∧ extractTriples text = (splitLines text.data).filterMap lineTriple := by
  constructor
  · rw [show (validateSyntax text).isValid
        = ((validateSyntax text).errors.length == 0) from rfl]
    simp [List.length_eq_zero]
  · exact extractTriplesGo_eq_filterMap (splitLines text.data)

/-! C10 machinery: single flat two-token lines "(p a)". -/

/-- A character that is neither whitespace nor a parenthesis: such characters
    pass untouched through trimming, word splitting and tokenization. -/
def goodChar (c : Char) : Bool :=
  !(isWS c) && c ≠ '(' && c ≠ ')'

theorem goodChar_spec (c : Char) (h : goodChar c = true) :
    isWS c = false ∧ c ≠ '(' ∧ c ≠ ')' := by
  unfold goodChar at h
  simp only [Bool.and_eq_true, Bool.not_eq_true', decide_eq_true_eq] at h
  exact ⟨h.1.1, h.1.2, h.2⟩

theorem goodChar_ne_nl (c : Char) (h : goodChar c = true) : c ≠ '\n' := by
  intro hcon
  subst hcon
  exact absurd (goodChar_spec '\n' h).1 (by decide)

theorem mem_of_head?_eq {α : Type} {l : List α} {c : α} (h : l.head? = some c) :
    c ∈ l := by
  cases l with
  | nil => exact absurd h (by simp)
  | cons x xs =>
    simp only [List.head?_cons, Option.some.injEq] at h
    subst h
    exact List.mem_cons_self _ _

theorem mem_of_getLast?_eq {α : Type} {l : List α} {c : α} (h : l.getLast? = some c) :
    c ∈ l := by
  rw [← List.head?_reverse] at h
  exact List.mem_reverse.mp (mem_of_head?_eq h)

theorem dropWhile_isWS_eq_self (l : List Char)
    (h : ∀ c, l.head? = some c → isWS c = false) : l.dropWhile isWS = l := by
  cases l with
  | nil => rfl
  | cons c rest =>
    rw [List.dropWhile_cons, h c rfl]
    simp

theorem trimChars_eq_self (l : List Char)
    (h1 : ∀ c, l.head? = some c → isWS c = false)
    (h2 : ∀ c, l.getLast? = some c → isWS c = false) : trimChars l = l := by
  unfold trimChars
  rw [dropWhile_isWS_eq_self l h1]
  rw [dropWhile_isWS_eq_self l.reverse (fun c hc =>
    h2 c (by rwa [List.head?_reverse] at hc))]
  exact List.reverse_reverse l

theorem trimChars_eq_self_of_good (l : List Char) (h : ∀ c ∈ l, isWS c = false) :
    trimChars l = l :=
  trimChars_eq_self l (fun c hc => h c (mem_of_head?_eq hc))
    (fun c hc => h c (mem_of_getLast?_eq hc))

/-- The paren scan walks over a parenthesis-free segment without changing
    its count or last-open state. -/
theorem parenScanAux_append_nonparen :
    ∀ (w : List Char), (∀ c ∈ w, c ≠ '(' ∧ c ≠ ')') →
    ∀ (l : List Char) (j : Nat) (count lastOpen : Int),
      parenScanAux (w ++ l) j count lastOpen
        = parenScanAux l (j + w.length) count lastOpen := by
  intro w
  induction w with
  | nil =>
    intro _ l j count lastOpen
    simp
  | cons c rest ih =>
    intro h l j count lastOpen
    have hc := h c (List.mem_cons_self _ _)
    rw [List.cons_append]
    unfold parenScanAux
    rw [if_neg hc.1, if_neg hc.2]
    rw [ih (fun x hx => h x (List.mem_cons_of_mem _ hx)) l (j + 1) count lastOpen]
    have harith : j + 1 + rest.length = j + (c :: rest).length := by
      simp only [List.length_cons]
      omega
    rw [harith, parenScanAux.eq_def]

/-- Word splitting accumulates a whitespace-free segment into the current
    word. -/
theorem wordsAux_append_nows :
    ∀ (w : List Char), (∀ c ∈ w, isWS c = false) →
    ∀ (l cur : List Char), wordsAux (w ++ l) cur = wordsAux l (w.reverse ++ cur) := by
  intro w
  induction w with
  | nil =>
    intro _ l cur
    simp
  | cons c rest ih =>
    intro h l cur
    rw [List.cons_append]
    unfold wordsAux
    rw [if_neg (by simp [h c (List.mem_cons_self _ _)])]
    rw [ih (fun x hx => h x (List.mem_cons_of_mem _ hx)) l (c :: cur)]
    rw [List.reverse_cons, List.append_assoc, List.singleton_append]
    rw [wordsAux.eq_def]

theorem wordsAux_single (a : List Char) (ha : a ≠ []) (h : ∀ c ∈ a, isWS c = false) :
    wordsAux a [] = [a] := by
  have h2 := wordsAux_append_nows a h [] []
  rw [List.append_nil] at h2
  rw [h2, List.append_nil]
  unfold wordsAux
  rw [if_neg (by simp [ha])]
  simp

theorem jsSplitWs_two_words (p a : List Char) (hp : p ≠ []) (ha : a ≠ [])
    (hgp : ∀ c ∈ p, isWS c = false) (hga : ∀ c ∈ a, isWS c = false) :
    jsSplitWs (p ++ ' ' :: a) = [p, a] := by
  unfold jsSplitWs
  rw [if_neg (by simp [hp])]
  rw [wordsAux_append_nows p hgp (' ' :: a) []]
  unfold wordsAux
  rw [if_pos (show isWS ' ' = true from rfl)]
  rw [if_neg (by simp [hp])]
  rw [wordsAux_single a ha hga]
  simp

/-- Tokenization accumulates a whole token of good characters into the
    current buffer. -/
theorem tokenizeAux_append_good :
    ∀ (w : List Char), w ≠ [] → (∀ c ∈ w, goodChar c = true) →
    ∀ (l cur : List Char) (d : Int) (it : Bool) (acc : List (List Char)),
      tokenizeAux (w ++ l) cur d it acc = tokenizeAux l (cur ++ w) d true acc := by
  intro w
  induction w with
  | nil =>
    intro h
    exact absurd rfl h
  | cons c rest ih =>
    intro _ h l cur d it acc
    obtain ⟨hws, hp1, hp2⟩ := goodChar_spec c (h c (List.mem_cons_self _ _))
    have hcsp : c ≠ ' ' := by
      intro hcc
      subst hcc
      exact absurd hws (by decide)
    rw [List.cons_append]
    unfold tokenizeAux
    rw [if_neg hp1, if_neg hp2]
    have hcond : ¬((decide (c = ' ') && decide (d = 0)) = true) := by
      rw [decide_eq_false hcsp, Bool.false_and]
      exact Bool.false_ne_true
    rw [if_neg hcond]
    by_cases hrest : rest = []
    · subst hrest
      rw [List.nil_append, tokenizeAux.eq_def]
    · rw [ih hrest (fun x hx => h x (List.mem_cons_of_mem _ hx)) l (cur ++ [c]) d true acc]
      rw [List.append_assoc, List.singleton_append, tokenizeAux.eq_def]

theorem tokenize_two_tokens (p a : List Char) (hp : p ≠ []) (ha : a ≠ [])
    (hgp : ∀ c ∈ p, goodChar c = true) (hga : ∀ c ∈ a, goodChar c = true) :
    tokenize (p ++ ' ' :: a) = [p, a] := by
  have htp : trimChars p = p :=
    trimChars_eq_self_of_good p (fun c hc => (goodChar_spec c (hgp c hc)).1)
  have hta : trimChars a = a :=
    trimChars_eq_self_of_good a (fun c hc => (goodChar_spec c (hga c hc)).1)
  unfold tokenize
  rw [tokenizeAux_append_good p hp hgp (' ' :: a) [] 0 false []]
  rw [List.nil_append]
  unfold tokenizeAux
  rw [if_neg (show ¬(' ' = '(') from by decide)]
  rw [if_neg (show ¬(' ' = ')') from by decide)]
  rw [if_pos (show (decide (' ' = ' ') && decide ((0 : Int) = 0)) = true from by decide)]
  rw [htp]
  rw [if_neg (show ¬(p.isEmpty = true) from by simp [hp])]
  rw [List.nil_append]
  conv_lhs => rw [show a = a ++ [] from (List.append_nil a).symm]
  rw [tokenizeAux_append_good a ha hga [] [] 0 false [p]]
  rw [List.nil_append]
  unfold tokenizeAux
  rw [hta]
  rw [if_neg (show ¬(a.isEmpty = true) from by simp [ha])]
  rfl

/-- The single line "(p a)". -/
def flatLine (p a : List Char) : List Char :=
  '(' :: p ++ ' ' :: a ++ [')']

theorem flatLine_concat (p a : List Char) :
    flatLine p a = ('(' :: p ++ ' ' :: a) ++ [')'] := by
  simp [flatLine, List.append_assoc]

theorem flatLine_head (p a : List Char) : (flatLine p a).head? = some '(' := rfl

theorem flatLine_getLast (p a : List Char) : (flatLine p a).getLast? = some ')' := by
  rw [flatLine_concat, List.getLast?_concat]

theorem flatLine_trim (p a : List Char) : trimChars (flatLine p a) = flatLine p a := by
  refine trimChars_eq_self _ ?_ ?_
  · intro c hc
    rw [flatLine_head] at hc
    simp only [Option.some.injEq] at hc
    subst hc
    decide
  · intro c hc
    rw [flatLine_getLast] at hc
    simp only [Option.some.injEq] at hc
    subst hc
    decide

theorem flatLine_interior (p a : List Char) :
    ((flatLine p a).drop 1).dropLast = p ++ ' ' :: a := by
  show (p ++ ' ' :: a ++ [')']).dropLast = p ++ ' ' :: a
  rw [show p ++ ' ' :: a ++ [')'] = (p ++ ' ' :: a) ++ [')'] from by
    simp [List.append_assoc]]
  exact List.dropLast_concat

theorem interior_trim (p a : List Char) (hp : p ≠ []) (ha : a ≠ [])
    (hgp : ∀ c ∈ p, goodChar c = true) (hga : ∀ c ∈ a, goodChar c = true) :
    trimChars (p ++ ' ' :: a) = p ++ ' ' :: a := by
  refine trimChars_eq_self _ ?_ ?_
  · intro c hc
    cases p with
    | nil => exact absurd rfl hp
    | cons x xs =>
      simp only [List.cons_append, List.head?_cons, Option.some.injEq] at hc
      subst hc
      exact (goodChar_spec x (hgp x (List.mem_cons_self _ _))).1
  · intro c hc
    rw [show p ++ ' ' :: a = (p ++ [' ']) ++ a from by simp [List.append_assoc]] at hc
    rw [List.getLast?_append] at hc
    cases hla : a.getLast? with
    | none => exact absurd (List.getLast?_eq_none_iff.mp hla) ha
    | some y =>
      rw [hla, Option.or_some] at hc
      simp only [Option.some.injEq] at hc
      subst hc
      exact (goodChar_spec y (hga y (mem_of_getLast?_eq hla))).1

/-- Every warning emitted by the per-line validator has warning severity. -/
theorem validateLine_warns (i : Nat) (raw : List Char) :
    ∀ w ∈ (validateLine i raw).2, w.severity = Severity.warning := by
  intro w hw
  unfold validateLine at hw
  dsimp only at hw
  split at hw
  · simp at hw
  · split at hw
    · simp at hw
    · split at hw
      · simp at hw
      · split at hw
        · simp at hw
        · split at hw
          · dsimp only at hw
            split at hw
            · split at hw
              · split at hw
                · simp only [List.mem_singleton] at hw
                  rw [hw]
                · simp at hw
              · simp at hw
            · simp at hw
          · simp at hw

theorem flatLine_no_newline (p a : List Char)
    (hgp : ∀ c ∈ p, goodChar c = true) (hga : ∀ c ∈ a, goodChar c = true) :
    ∀ c ∈ flatLine p a, c ≠ '\n' := by
  intro c hc
  rw [show flatLine p a = '(' :: (p ++ (' ' :: (a ++ [')']))) from by
    unfold flatLine
    simp [List.append_assoc]] at hc
  rcases List.mem_cons.mp hc with rfl | hc1
  · decide
  rcases List.mem_append.mp hc1 with hcp | hc2
  · exact goodChar_ne_nl c (hgp c hcp)
  rcases List.mem_cons.mp hc2 with rfl | hc3
  · decide
  rcases List.mem_append.mp hc3 with hca | hc4
  · exact goodChar_ne_nl c (hga c hca)
  rcases List.mem_cons.mp hc4 with rfl | hc5
  · decide
  exact absurd hc5 (List.not_mem_nil c)

theorem flatLine_nonparen_interior (p a : List Char)
    (hgp : ∀ c ∈ p, goodChar c = true) (hga : ∀ c ∈ a, goodChar c = true) :
    ∀ c ∈ p ++ ' ' :: a, c ≠ '(' ∧ c ≠ ')' := by
  intro c hc
  rcases List.mem_append.mp hc with h1 | h1
  · have hs := goodChar_spec c (hgp c h1)
    exact ⟨hs.2.1, hs.2.2⟩
  rcases List.mem_cons.mp h1 with rfl | h2
  · exact ⟨by decide, by decide⟩
  · have hs := goodChar_spec c (hga c h2)
    exact ⟨hs.2.1, hs.2.2⟩

theorem flatLine_scan (p a : List Char)
    (hgp : ∀ c ∈ p, goodChar c = true) (hga : ∀ c ∈ a, goodChar c = true) :
    parenScanAux (flatLine p a) 0 0 (-1) = (none, 0, 0) := by
  have hlast : ∀ j : Nat, parenScanAux [')'] j ((0 : Int) + 1) ((0 : Nat) : Int)
      = (none, 0, 0) := by
    intro j
    unfold parenScanAux
    rw [if_neg (show ¬(')' = '(') from by decide), if_pos rfl]
    rw [if_neg (show ¬((0 : Int) + 1 - 1 < 0) from by decide)]
    rw [parenScanAux.eq_def]
    simp
  show parenScanAux ('(' :: (p ++ ' ' :: a ++ [')'])) 0 0 (-1) = _
  unfold parenScanAux
  rw [if_pos rfl]
  rw [show p ++ ' ' :: a ++ [')'] = (p ++ ' ' :: a) ++ [')'] from by
    simp [List.append_assoc]]
  rw [parenScanAux_append_nonparen (p ++ ' ' :: a)
    (flatLine_nonparen_interior p a hgp hga) [')'] (0 + 1) (0 + 1) ((0 : Nat) : Int)]
  exact hlast _

theorem flatLine_length (p a : List Char) : (flatLine p a).length > 2 := by
  simp only [flatLine, List.cons_append, List.length_cons, List.length_append]
  omega

theorem validateLine_flat_errors (p a : List Char) (hp : p ≠ []) (ha : a ≠ [])
    (hgp : ∀ c ∈ p, goodChar c = true) (hga : ∀ c ∈ a, goodChar c = true) :
    (validateLine 0 (flatLine p a)).1 = [] := by
  have htrim := flatLine_trim p a
  have hneT : (trimChars (flatLine p a)).isEmpty = false := by
    rw [htrim]
    rfl
  have hcmT : (trimChars (flatLine p a)).head? ≠ some ';' := by
    rw [htrim, flatLine_head]
    decide
  have hopT : (trimChars (flatLine p a)).head? = some '(' := by
    rw [htrim]
    exact flatLine_head p a
  have hscanT : parenScanAux (trimChars (flatLine p a)) 0 0 (-1) = (none, 0, 0) := by
    rw [htrim]
    exact flatLine_scan p a hgp hga
  have hlenT : (trimChars (flatLine p a)).length > 2 := by
    rw [htrim]
    exact flatLine_length p a
  have hsplit := jsSplitWs_two_words p a hp ha
    (fun c hc => (goodChar_spec c (hgp c hc)).1)
    (fun c hc => (goodChar_spec c (hga c hc)).1)
  unfold validateLine
  rw [if_neg (by simp [hneT, hcmT])]
  rw [if_neg (fun hcon => hcon hopT)]
  rw [hscanT]
  dsimp only
  rw [if_neg (show ¬((0 : Int) > 0) from by norm_num)]
  rw [if_pos hlenT]
  dsimp only
  rw [htrim, flatLine_interior, interior_trim p a hp ha hgp hga, hsplit]
  rw [if_neg (show ¬(([p, a] : List (List Char)).length < 2) from by simp)]

theorem parseExpression_flat (p a : List Char) (hp : p ≠ []) (ha : a ≠ [])
    (hgp : ∀ c ∈ p, goodChar c = true) (hga : ∀ c ∈ a, goodChar c = true) :
    parseExpression (flatLine p a)
      = some (.mk (String.mk p) [Sum.inl (String.mk a)]) := by
  have htrim := flatLine_trim p a
  have htok : exprTokens (flatLine p a) = [p, a] := by
    unfold exprTokens
    rw [htrim, flatLine_interior, interior_trim p a hp ha hgp hga]
    exact tokenize_two_tokens p a hp ha hgp hga
  have hnpa : ¬(a.head? = some '(' ∧ a.getLast? = some ')') := by
    intro hcon
    have hmem := mem_of_head?_eq hcon.1
    exact (goodChar_spec '(' (hga '(' hmem)).2.1 rfl
  show parseExpressionFuel (flatLine p a).length (flatLine p a) = _
  rw [show (flatLine p a).length = (p ++ ' ' :: a ++ [')']).length + 1 from rfl]
  unfold parseExpressionFuel
  rw [htrim]
  rw [if_pos ⟨flatLine_head p a, flatLine_getLast p a⟩]
  rw [htok]
  rw [if_neg (show ¬(([p, a] : List (List Char)).length < 2) from by simp)]
  simp only [List.headD_cons, List.drop_succ_cons, List.drop_zero, List.filterMap_cons,
    List.filterMap_nil]
  rw [if_neg hnpa]

theorem expressionToTriple_flat (P A : String) :
    expressionToTriple (.mk P [Sum.inl A]) = none := rfl

theorem extractTriples_flat (p a : List Char) (hp : p ≠ []) (ha : a ≠ [])
    (hgp : ∀ c ∈ p, goodChar c = true) (hga : ∀ c ∈ a, goodChar c = true) :
    extractTriples (String.mk (flatLine p a)) = [] := by
  have htrim := flatLine_trim p a
  unfold extractTriples
  rw [show (String.mk (flatLine p a)).data = flatLine p a from rfl]
  rw [splitLines_single _ (flatLine_no_newline p a hgp hga)]
  unfold extractTriplesGo
  dsimp only
  rw [htrim]
  rw [if_neg (by
    simp only [Bool.or_eq_true, decide_eq_true_eq]
    push_neg
    refine ⟨?_, ?_⟩
    · rw [show (flatLine p a).isEmpty = false from rfl]
      exact Bool.false_ne_true
    · rw [flatLine_head]
      decide)]
  rw [parseExpression_flat p a hp ha hgp hga]
  dsimp only
  rw [expressionToTriple_flat]
  rfl

/-- C10: a single line "(p a)" whose two tokens p and a are nonempty and
    contain neither whitespace nor parentheses validates successfully with an
    empty error list, yields no triples (a flat expression needs at least two
    string arguments), and parse therefore returns a graph with no nodes and
    no edges while its error list contains only warnings, never an error. -/
theorem c10_flat_two_token (ops : NumOps) (c : Nat) (p a : List Char)
    (hp : p ≠ []) (ha : a ≠ [])
    (hgp : ∀ ch ∈ p, goodChar ch = true) (hga : ∀ ch ∈ a, goodChar ch = true) :
    (validateSyntax (String.mk (flatLine p a))).isValid = true
    ∧ (validateSyntax (String.mk (flatLine p a))).errors = []
    ∧ extractTriples (String.mk (flatLine p a)) = []
    ∧ (parse ops c (String.mk (flatLine p a))).1.nodes = []
    ∧ (parse ops c (String.mk (flatLine p a))).1.edges = []
    ∧ ∀ e ∈ (parse ops c (String.mk (flatLine p a))).1.errors,
        e.severity = Severity.warning := by
  have hnl := flatLine_no_newline p a hgp hga
  obtain ⟨hverr, hvwarn, hvvalid⟩ := validateSyntax_single (flatLine p a) hnl
  have herr : (validateSyntax (String.mk (flatLine p a))).errors = [] := by
    rw [hverr]
    exact validateLine_flat_errors p a hp ha hgp hga
  have hext := extractTriples_flat p a hp ha hgp hga
  refine ⟨?_, herr, hext, ?_, ?_, ?_⟩
  · rw [hvvalid, validateLine_flat_errors p a hp ha hgp hga]
    rfl
  · unfold parse
    dsimp only
    rw [hext]
    rfl
  · unfold parse
    dsimp only
    rw [hext]
    rfl
  · intro e he
    unfold parse at he
    dsimp only at he
    rcases List.mem_append.mp he with h1 | h1
    · rw [herr] at h1
      exact absurd h1 (List.not_mem_nil _)
    · rw [hvwarn] at h1
      exact validateLine_warns 0 (flatLine p a) e h1

theorem c10_flat_two_token_witness :
    (("pred".data : List Char) ≠ []
      ∧ ("arg".data : List Char) ≠ []
      ∧ (∀ ch ∈ "pred".data, goodChar ch = true)
      ∧ (∀ ch ∈ "arg".data, goodChar ch = true))
    ∧ ((validateSyntax (String.mk (flatLine "pred".data "arg".data))).isValid = true
      ∧ (validateSyntax (String.mk (flatLine "pred".data "arg".data))).errors = []
      ∧ extractTriples (String.mk (flatLine "pred".data "arg".data)) = []
      ∧ (parse numOpsArb 0 (String.mk (flatLine "pred".data "arg".data))).1.nodes = []
      ∧ (parse numOpsArb 0 (String.mk (flatLine "pred".data "arg".data))).1.edges = []
      ∧ ∀ e ∈ (parse numOpsArb 0 (String.mk (flatLine "pred".data "arg".data))).1.errors,
          e.severity = Severity.warning) :=
  ⟨⟨by decide, by decide, by decide, by decide⟩,
   c10_flat_two_token numOpsArb 0 "pred".data "arg".data
     (by decide) (by decide) (by decide) (by decide)⟩

end AV
